import Mathlib

set_option maxHeartbeats 1000000

/-!
Verification development for the meeting-automation job queue and session pool.

The embedded code:

* `src/queue/jobQueue.ts` — `MeetingJob`, `JobQueue` (queue list, `activeJobs`
  map, `scheduledTimers` map, `addJob`, `processNext`, `processJob`,
  `completeJob`, `scheduleUpcomingJobs`, `getJob`, `updateJobStatus`,
  `clearTimers`).
* `src/browser/SessionPool.ts` — `SessionPool` (`activeSessions` map,
  `acquireSession`, `releaseSession`, `close`/`reinitialize`).
* `src/server.ts` — the job processor callback installed by
  `initializeAutomation` (acquire → join → save session → mark `in-meeting` →
  optional recording), and the `leave-meeting` route (stop recording, leave,
  `releaseSession`, `completeJob`).
* `src/meet/recordingHandler.ts` — `RecordingHandler.startRecording`.

Execution model: Node.js runs the bookkeeping single-threaded; interleaving
happens only at `await` suspension points.  Each transition of the step
relation `QStep` below is one synchronous block of the source between two
suspension points.  Timestamps are naturals, job ids are assigned
sequentially (modelling fresh uuid v4 values), and the string-keyed `Map`s
are modelled as lists of keys with `Map.set` = `insertKey`,
`Map.delete` = `List.erase`.
-/

/-- `MeetingJob.status`: `'queued' | 'processing' | 'in-meeting' | 'completed' | 'failed'`. -/
inductive JStatus where
  | queued
  | processing
  | inMeeting
  | completed
  | failed
deriving DecidableEq, Repr

/-- The `MeetingJob` interface of `jobQueue.ts` (dates as naturals). -/
structure MeetingJob where
  id : Nat
  meetingUrl : String
  startRecording : Bool
  scheduledTime : Option Nat
  status : JStatus
  error : Option String
  createdAt : Nat
  startedAt : Option Nat
  completedAt : Option Nat
deriving DecidableEq, Repr

/-- The suspension point at which a job's driver (the processor callback of
`server.ts` plus the surrounding `JobQueue.processJob`) is currently parked:

* `acquiring` — inside `await MeetingSession.create` of
  `SessionPool.acquireSession` (capacity check already passed, binding not done);
* `capacityNull` — `acquireSession` returned `null` synchronously; the callback
  will resume and `throw new Error('No session slot available')`;
* `joining` — session bound, inside `await session.joinMeeting(...)`;
* `saving` — join reported success, inside `await saveSessionFromContext`;
* `stabilizing` — job marked `in-meeting`, recording requested, inside the 5 s
  stabilization wait before `await session.startRecording()`. -/
inductive DriverStage where
  | acquiring
  | capacityNull
  | joining
  | saving
  | stabilizing
deriving DecidableEq, Repr

/-- Combined state of the `JobQueue` singleton, the `SessionPool` singleton and
the in-flight driver continuations.

* `jobs` — `JobQueue.queue` (append-only history list);
* `activeJobs` — key set of `JobQueue.activeJobs`;
* `activeSessions` — key set of `SessionPool.activeSessions`;
* `drivers` — the parked driver continuation (at most one per job id);
* `timers` — key set of `JobQueue.scheduledTimers`;
* `recFlags` — job ids whose session's `RecordingHandler.isRecording` is true;
* `maxConcurrent` — `config.maxConcurrentSessions`;
* `now` — current time; `hasProcessor` — whether `setProcessor` has run. -/
structure QState where
  jobs : List MeetingJob
  activeJobs : List Nat
  activeSessions : List Nat
  drivers : List (Nat × DriverStage)
  timers : List Nat
  recFlags : List Nat
  maxConcurrent : Nat
  now : Nat
  hasProcessor : Bool
deriving DecidableEq, Repr

/-- `Map.set` on the key set of a string-keyed map: inserts the key if absent. -/
def insertKey (l : List Nat) (id : Nat) : List Nat :=
  if id ∈ l then l else id :: l

/-- `queue.find((job) => job.id === jobId)` at the list level. -/
def findJob (jobs : List MeetingJob) (id : Nat) : Option MeetingJob :=
  jobs.find? (fun j => j.id == id)

/-- `JobQueue.getJob`: `this.queue.find((job) => job.id === jobId)`. -/
def getJob (s : QState) (id : Nat) : Option MeetingJob :=
  findJob s.jobs id

/-- Status projection of `getJob`. -/
def getJobStatus (s : QState) (id : Nat) : Option JStatus :=
  (getJob s id).map (fun j => j.status)

/-- In-place mutation of the job object with the given id (JS objects are
shared by reference between `queue` and `activeJobs`, so one update suffices). -/
def setJob (jobs : List MeetingJob) (id : Nat) (f : MeetingJob → MeetingJob) :
    List MeetingJob :=
  jobs.map (fun j => if j.id == id then f j else j)

/-- Key set of a driver continuation table. -/
def keyIds (d : List (Nat × DriverStage)) : List Nat := d.map Prod.fst

/-- Key set of the in-flight driver continuations. -/
def driverIds (s : QState) : List Nat := keyIds s.drivers

/-- Stage lookup in a driver continuation table. -/
def stageIn (d : List (Nat × DriverStage)) (id : Nat) : Option DriverStage :=
  (d.find? (fun p => p.1 == id)).map Prod.snd

/-- The stage the driver of job `id` is parked at, if any. -/
def stageOf (s : QState) (id : Nat) : Option DriverStage :=
  stageIn s.drivers id

/-- Replace the stage of the driver of job `id`. -/
def setStage (drivers : List (Nat × DriverStage)) (id : Nat) (st : DriverStage) :
    List (Nat × DriverStage) :=
  drivers.map (fun p => if p.1 == id then (p.1, st) else p)

/-- Remove the driver continuation of job `id` (the driver has terminated). -/
def removeDriver (drivers : List (Nat × DriverStage)) (id : Nat) :
    List (Nat × DriverStage) :=
  drivers.filter (fun p => p.1 != id)

/-- Keys of entries of a driver table that are in the `acquiring` stage. -/
def acqIds (d : List (Nat × DriverStage)) : List Nat :=
  (d.filter (fun p => p.2 == DriverStage.acquiring)).map Prod.fst

/-- Ids of drivers currently suspended inside `MeetingSession.create`
(capacity check passed in `acquireSession`, binding not yet performed). -/
def acquiringIds (s : QState) : List Nat := acqIds s.drivers

/-- Ids holding a pool slot or an in-flight acquisition: each such id
accounts for one unit of eventual pool occupancy. -/
def occupancy (s : QState) : List Nat := s.activeSessions ++ acquiringIds s

/-- The readiness test of `JobQueue.processNext`:
`job.status === 'queued' && (!job.scheduledTime || job.scheduledTime <= now)`. -/
def jobReady (now : Nat) (j : MeetingJob) : Bool :=
  j.status == JStatus.queued &&
    (match j.scheduledTime with
     | none => true
     | some t => decide (t ≤ now))

/-- Ids of the `readyJobs` array computed at the top of `processNext`
(a filter of the queue, hence in submission order). -/
def readyIds (s : QState) : List Nat :=
  (s.jobs.filter (fun j => jobReady s.now j)).map MeetingJob.id

/-- One iteration of the `processNext` dispatch loop after the capacity check
passed: the synchronous prefix of `processJob` (status := `processing`,
`startedAt` stamp, `activeJobs.set`) followed by the synchronous prefix of the
processor callback of `server.ts`, i.e. the synchronous prefix of
`SessionPool.acquireSession` (idempotent-hit check, capacity check), up to the
first suspension point, recorded as the new driver's stage. -/
def dispatchOne (s : QState) (id : Nat) : QState :=
  { s with
    jobs := setJob s.jobs id (fun j =>
      { j with status := JStatus.processing, startedAt := some s.now }),
    activeJobs := insertKey s.activeJobs id,
    drivers := (id,
      if id ∈ s.activeSessions then DriverStage.joining
      else if s.maxConcurrent ≤ s.activeSessions.length then
        DriverStage.capacityNull
      else DriverStage.acquiring) :: s.drivers }

/-- The `for (const job of readyJobs)` loop of `processNext`: dispatch ready
jobs in order, `break` as soon as `activeJobs.size >= config.maxConcurrentSessions`. -/
def dispatchLoop : QState → List Nat → QState
  | s, [] => s
  | s, id :: rest =>
    if s.maxConcurrent ≤ s.activeJobs.length then s
    else dispatchLoop (dispatchOne s id) rest

/-- Ids gaining a timer in `scheduleUpcomingJobs`: queued jobs with a strictly
future `scheduledTime` that are not already in `scheduledTimers`. -/
def futurePending (s : QState) : List Nat :=
  (s.jobs.filter (fun j =>
    j.status == JStatus.queued &&
      (match j.scheduledTime with
       | some t => decide (s.now < t)
       | none => false) &&
      !(s.timers.contains j.id))).map MeetingJob.id

/-- `JobQueue.scheduleUpcomingJobs`: set a timer for every pending scheduled
job that does not already have one. -/
def scheduleUpcoming (s : QState) : QState :=
  { s with timers := s.timers ++ futurePending s }

/-- `JobQueue.processNext`: early return when no processor is set; otherwise
run the dispatch loop over the ready jobs and then `scheduleUpcomingJobs`. -/
def dispatchPass (s : QState) : QState :=
  if s.hasProcessor then scheduleUpcoming (dispatchLoop s (readyIds s)) else s

/-- The fresh uuid of the next submitted job, modelled as the next sequential
index of the append-only queue. -/
def newJobId (s : QState) : Nat := s.jobs.length

/-- The job object constructed at the top of `JobQueue.addJob`. -/
def mkJob (s : QState) (url : String) (rec : Bool) (sched : Option Nat) :
    MeetingJob :=
  { id := newJobId s, meetingUrl := url, startRecording := rec,
    scheduledTime := sched, status := JStatus.queued, error := none,
    createdAt := s.now, startedAt := none, completedAt := none }

/-- `JobQueue.addJob`: push the new queued job, then synchronously run
`processNext` before returning the (possibly already mutated) job object. -/
def addJob (s : QState) (url : String) (rec : Bool) (sched : Option Nat) :
    QState :=
  dispatchPass { s with jobs := s.jobs ++ [mkJob s url rec sched] }

/-- `JobQueue.updateJobStatus`: look the job up and set its status, with no
guard on the previous status. -/
def updateJobStatus (s : QState) (id : Nat) (st : JStatus) : QState :=
  { s with jobs := setJob s.jobs id (fun j => { j with status := st }) }

/-- `SessionPool.releaseSession`: cleanup (no observable queue/pool state
change) followed by `activeSessions.delete(jobId)`; a no-op when unbound. -/
def releasePool (s : QState) (id : Nat) : QState :=
  { s with activeSessions := s.activeSessions.erase id }

/-- The `catch` block of `JobQueue.processJob`: mark the job `failed`, record
the error and `completedAt`, drop it from `activeJobs`, drop the (terminated)
driver continuation. -/
def failBookkeeping (s : QState) (id : Nat) (err : String) : QState :=
  { s with
    jobs := setJob s.jobs id (fun j =>
      { j with status := JStatus.failed, error := some err,
               completedAt := some s.now }),
    activeJobs := s.activeJobs.erase id,
    drivers := removeDriver s.drivers id }

/-- Complete failure path of a throwing driver: the processor callback's
`catch` in `server.ts` (`await sessionPool.releaseSession(job.id)`, rethrow)
followed by the `catch` of `JobQueue.processJob` and its trailing
`this.processNext()`. -/
def failDriver (s : QState) (id : Nat) (err : String) : QState :=
  dispatchPass (failBookkeeping (releasePool s id) id err)

/-- `JobQueue.completeJob` without error: mark `completed`, stamp
`completedAt`, drop from `activeJobs` (the driver continuation, if still
in flight, is untouched — completion is external). -/
def completeBookkeeping (s : QState) (id : Nat) : QState :=
  { s with
    jobs := setJob s.jobs id (fun j =>
      { j with status := JStatus.completed, completedAt := some s.now }),
    activeJobs := s.activeJobs.erase id }

/-- The `leave-meeting` route of `server.ts`: `releaseSession(jobId)` then
`completeJob(jobId)` (which ends with `processNext()`). -/
def applyLeave (s : QState) (id : Nat) : QState :=
  dispatchPass (completeBookkeeping (releasePool s id) id)

/-- Resumption after `MeetingSession.create` resolves inside `acquireSession`:
`this.activeSessions.set(jobId, session)`, return to the callback, which
proceeds into `await session.joinMeeting(...)`. -/
def bindSession (s : QState) (id : Nat) : QState :=
  { s with activeSessions := insertKey s.activeSessions id,
           drivers := setStage s.drivers id DriverStage.joining }

/-- Move the driver of `id` to stage `st` with no other state change. -/
def setStageState (s : QState) (id : Nat) (st : DriverStage) : QState :=
  { s with drivers := setStage s.drivers id st }

/-- Resumption after `saveSessionFromContext` resolves:
`jobQueue.updateJobStatus(job.id, 'in-meeting')`, then either enter the
recording stabilization wait (when `job.startRecording`) or return from the
callback (driver done). -/
def applySaved (s : QState) (id : Nat) : QState :=
  let s1 := updateJobStatus s id JStatus.inMeeting
  match getJob s id with
  | some j =>
    if j.startRecording then setStageState s1 id DriverStage.stabilizing
    else { s1 with drivers := removeDriver s1.drivers id }
  | none => { s1 with drivers := removeDriver s1.drivers id }

/-- Resumption after `session.startRecording()` resolves with `ok`: a `false`
result is only logged (`continuing without recording`); a `true` result means
the handler set its `isRecording` flag. Either way the callback returns and
the driver is done. -/
def applyRecordingResult (s : QState) (id : Nat) (ok : Bool) : QState :=
  { s with recFlags := if ok then insertKey s.recFlags id else s.recFlags,
           drivers := removeDriver s.drivers id }

/-- A `scheduledTimers` timer firing: `this.scheduledTimers.delete(job.id)`
then `this.processNext()`. -/
def fireTimer (s : QState) (id : Nat) : QState :=
  dispatchPass { s with timers := s.timers.erase id }

/-- `JobQueue.clearTimers`: cancel every timer and clear the registry. -/
def clearAllTimers (s : QState) : QState := { s with timers := [] }

/-- A real `setTimeout` timer for job `id` can only fire once the scheduled
time of that job has been reached (the timer was created with delay
`scheduledTime - now`). -/
def timerDue (s : QState) (id : Nat) : Prop :=
  id ∈ s.timers ∧
    ∀ j, getJob s id = some j → ∀ t, j.scheduledTime = some t → t ≤ s.now

/-- Server start-up state: empty queue and pool, processor installed. -/
def initState (maxConc : Nat) : QState :=
  { jobs := [], activeJobs := [], activeSessions := [], drivers := [],
    timers := [], recFlags := [], maxConcurrent := maxConc, now := 0,
    hasProcessor := true }

/-- Result of `RecordingHandler.startRecording`: the handler's `isRecording`
flag afterwards, and the returned boolean. -/
structure RHResult where
  isRecording : Bool
  result : Bool
deriving DecidableEq, Repr

/-- `RecordingHandler.startRecording` (`src/meet/recordingHandler.ts`): returns
`true` immediately when already recording; any error thrown inside the body is
caught and reported as `false` with the flag unchanged; failing to find the
Record menu item returns `false` with the flag unchanged; otherwise the flag is
set and `true` is returned (even when verification is inconclusive).
`recordClicked` and `crashed` are oracles for the page interaction outcomes. -/
def rhStart (isRecording : Bool) (recordClicked : Bool) (crashed : Bool) :
    RHResult :=
  if isRecording then { isRecording := isRecording, result := true }
  else if crashed then { isRecording := isRecording, result := false }
  else if recordClicked then { isRecording := true, result := true }
  else { isRecording := isRecording, result := false }

/-- One synchronous block of the system between suspension points. Each
constructor names the source location it embeds. -/
inductive QStep : QState → QState → Prop where
  /-- `POST /api/join-meeting` → `jobQueue.addJob` (which runs `processNext`
  synchronously before returning). -/
  | submit (s : QState) (url : String) (rec : Bool) (sched : Option Nat) :
      QStep s (addJob s url rec sched)
  /-- `MeetingSession.create` resolves: `acquireSession` binds the session. -/
  | finishAcquire (s : QState) (id : Nat)
      (h : stageOf s id = some DriverStage.acquiring) :
      QStep s (bindSession s id)
  /-- `MeetingSession.create` rejects (e.g. browser closed): the callback
  throws and the failure path runs. -/
  | acquireErr (s : QState) (id : Nat) (err : String)
      (h : stageOf s id = some DriverStage.acquiring) :
      QStep s (failDriver s id err)
  /-- The callback resumes after `acquireSession` returned `null` and throws
  `'No session slot available'`. -/
  | capacityErr (s : QState) (id : Nat)
      (h : stageOf s id = some DriverStage.capacityNull) :
      QStep s (failDriver s id "No session slot available")
  /-- `joinMeeting` resolves `true`: the callback proceeds into
  `saveSessionFromContext`. -/
  | joinOk (s : QState) (id : Nat)
      (h : stageOf s id = some DriverStage.joining) :
      QStep s (setStageState s id DriverStage.saving)
  /-- `joinMeeting` resolves `false` (callback throws `'Failed to join
  meeting'`) or rejects: the failure path runs. -/
  | joinErr (s : QState) (id : Nat) (err : String)
      (h : stageOf s id = some DriverStage.joining) :
      QStep s (failDriver s id err)
  /-- `saveSessionFromContext` resolves: mark `in-meeting`, maybe enter the
  recording stabilization wait. -/
  | sessionSaved (s : QState) (id : Nat)
      (h : stageOf s id = some DriverStage.saving) :
      QStep s (applySaved s id)
  /-- `saveSessionFromContext` rejects: the failure path runs. -/
  | saveErr (s : QState) (id : Nat) (err : String)
      (h : stageOf s id = some DriverStage.saving) :
      QStep s (failDriver s id err)
  /-- The session is still bound, so `session.startRecording()` cannot throw
  (`RecordingHandler` catches its own errors) and resolves with `ok`. -/
  | recordingResult (s : QState) (id : Nat) (ok : Bool)
      (h : stageOf s id = some DriverStage.stabilizing)
      (hs : id ∈ s.activeSessions) :
      QStep s (applyRecordingResult s id ok)
  /-- The session was released/torn down during the stabilization wait:
  `MeetingSession.startRecording` throws `'Session is no longer active'` and
  the failure path runs. -/
  | recordingCrash (s : QState) (id : Nat)
      (h : stageOf s id = some DriverStage.stabilizing)
      (hs : id ∉ s.activeSessions) :
      QStep s (failDriver s id "Session is no longer active")
  /-- `POST /api/leave-meeting/:jobId` (requires a bound session). -/
  | leave (s : QState) (id : Nat) (hs : id ∈ s.activeSessions) :
      QStep s (applyLeave s id)
  /-- A scheduled timer fires (only once its job's scheduled time is due). -/
  | timerFired (s : QState) (id : Nat) (h : timerDue s id) :
      QStep s (fireTimer s id)
  /-- Shutdown handler: `jobQueue.clearTimers()`. -/
  | shutdownTimers (s : QState) : QStep s (clearAllTimers s)
  /-- Time passes. -/
  | tick (s : QState) (dt : Nat) : QStep s { s with now := s.now + dt }
  /-- `sessionPool.reinitialize` (headless-mode switch in the join route):
  `close()` disposes every session and clears `activeSessions`. -/
  | reinit (s : QState) : QStep s { s with activeSessions := [] }

/-- States reachable from server start-up. -/
inductive QReach : QState → Prop where
  | init (maxConc : Nat) : QReach (initState maxConc)
  | step {s s' : QState} : QReach s → QStep s s' → QReach s'

/-- State of a `SessionPool` considered in isolation: bound sessions and
acquire calls currently suspended inside `await MeetingSession.create`
(between the capacity check and the binding). -/
structure PoolSt where
  activeSessions : List Nat
  pending : List Nat
  maxConcurrent : Nat
deriving DecidableEq, Repr

/-- Interleaving semantics of `SessionPool.acquireSession` /
`releaseSession` alone: `check` is the synchronous prefix of `acquireSession`
(idempotent-hit test and capacity test) entering `await
MeetingSession.create`; `bind` is the resumption performing
`activeSessions.set(jobId, session)` with no re-check. -/
inductive PStep : PoolSt → PoolSt → Prop where
  | check (p : PoolSt) (id : Nat) (h1 : id ∉ p.activeSessions)
      (h2 : id ∉ p.pending)
      (hcap : p.activeSessions.length < p.maxConcurrent) :
      PStep p { p with pending := id :: p.pending }
  | bind (p : PoolSt) (id : Nat) (h : id ∈ p.pending) :
      PStep p { p with pending := p.pending.erase id,
                       activeSessions := insertKey p.activeSessions id }
  | release (p : PoolSt) (id : Nat) :
      PStep p { p with activeSessions := p.activeSessions.erase id }

/-- Pool states reachable from an empty pool. -/
inductive PReach : PoolSt → Prop where
  | start (maxConc : Nat) :
      PReach { activeSessions := [], pending := [], maxConcurrent := maxConc }
  | step {p p' : PoolSt} : PReach p → PStep p p' → PReach p'

/-- The pool under the gating the `JobQueue` dispatch loop provides: a new
acquire call only starts while bound-plus-in-flight acquisitions are below the
limit (the queue's synchronous `activeJobs.size` check ensures exactly this,
since every in-flight acquisition holds a distinct `activeJobs` slot). -/
inductive GStep : PoolSt → PoolSt → Prop where
  | check (p : PoolSt) (id : Nat) (h1 : id ∉ p.activeSessions)
      (h2 : id ∉ p.pending)
      (hcap : p.activeSessions.length + p.pending.length < p.maxConcurrent) :
      GStep p { p with pending := id :: p.pending }
  | bind (p : PoolSt) (id : Nat) (h : id ∈ p.pending) :
      GStep p { p with pending := p.pending.erase id,
                       activeSessions := insertKey p.activeSessions id }
  | release (p : PoolSt) (id : Nat) :
      GStep p { p with activeSessions := p.activeSessions.erase id }

/-- Pool states reachable from an empty pool under queue gating. -/
inductive GReach : PoolSt → Prop where
  | start (maxConc : Nat) :
      GReach { activeSessions := [], pending := [], maxConcurrent := maxConc }
  | step {p p' : PoolSt} : GReach p → GStep p p' → GReach p'

/-- The inductive system invariant of the composed queue/pool state. -/
structure SysInv (s : QState) : Prop where
  idLt : ∀ j ∈ s.jobs, j.id < s.jobs.length
  idsSorted : s.jobs.Pairwise (fun a b => a.id < b.id)
  activeNodup : s.activeJobs.Nodup
  activeLe : s.activeJobs.length ≤ s.maxConcurrent
  occNodup : (occupancy s).Nodup
  occSub : ∀ id ∈ occupancy s, id ∈ s.activeJobs
  driversNodup : (driverIds s).Nodup
  timersNodup : s.timers.Nodup
  activeJob : ∀ id ∈ s.activeJobs,
    ∃ j, getJob s id = some j ∧ j.status ≠ JStatus.queued
  driverJob : ∀ id ∈ driverIds s,
    ∃ j, getJob s id = some j ∧ j.status ≠ JStatus.queued
  timerJob : ∀ id ∈ s.timers, ∃ j, getJob s id = some j
  noCapNull : ∀ pr ∈ s.drivers, pr.2 ≠ DriverStage.capacityNull
  schedFuture : ∀ j ∈ s.jobs, ∀ t, j.scheduledTime = some t → s.now < t →
    j.status = JStatus.queued
  fifo : ∀ id1 id2 j1 j2, id1 < id2 → getJob s id1 = some j1 →
    getJob s id2 = some j2 → j1.scheduledTime = none →
    j2.scheduledTime = none → j1.status = JStatus.queued →
    j2.status = JStatus.queued

/-- Inductive invariant of the gated pool: in-flight acquisitions are
pairwise distinct, disjoint from bound sessions, and bound-plus-in-flight
stays within the limit. -/
structure GPoolInv (p : PoolSt) : Prop where
  pendingNodup : p.pending.Nodup
  disj : ∀ x ∈ p.pending, x ∉ p.activeSessions
  occLe : p.activeSessions.length + p.pending.length ≤ p.maxConcurrent

/-- Preconditions under which the dispatch loop runs on a ready list `L`:
the invariant, `L` lists exactly the ready job ids, and `L` is strictly
increasing (submission order). -/
structure LoopOk (s : QState) (L : List Nat) : Prop where
  inv : SysInv s
  mem : ∀ id ∈ L, ∃ j, getJob s id = some j ∧ jobReady s.now j = true
  all : ∀ id j, getJob s id = some j → jobReady s.now j = true → id ∈ L
  sorted : L.Pairwise (fun a b => a < b)

/-! ### Basic list algebra for the embedded maps -/

theorem nodup_length_le_of_sub {l1 l2 : List Nat} (h1 : l1.Nodup)
    (h2 : ∀ x ∈ l1, x ∈ l2) : l1.length ≤ l2.length := by
  calc l1.length = l1.toFinset.card := (List.toFinset_card_of_nodup h1).symm
    _ ≤ l2.toFinset.card := Finset.card_le_card (by
        intro x hx
        simp only [List.mem_toFinset] at hx ⊢
        exact h2 x hx)
    _ ≤ l2.length := l2.toFinset_card_le

theorem length_insertKey (l : List Nat) (id : Nat) :
    (insertKey l id).length = if id ∈ l then l.length else l.length + 1 := by
  unfold insertKey
  by_cases h : id ∈ l <;> simp [h]

theorem insertKey_of_not_mem {l : List Nat} {id : Nat} (h : id ∉ l) :
    insertKey l id = id :: l := by
  unfold insertKey
  simp [h]

theorem mem_insertKey {l : List Nat} {id x : Nat} :
    x ∈ insertKey l id ↔ x = id ∨ x ∈ l := by
  unfold insertKey
  by_cases h : id ∈ l
  · simp only [if_pos h]
    constructor
    · exact Or.inr
    · rintro (rfl | hx)
      · exact h
      · exact hx
  · simp [if_neg h]

theorem jobReady_status {now : Nat} {j : MeetingJob}
    (h : jobReady now j = true) : j.status = JStatus.queued := by
  unfold jobReady at h
  simp only [Bool.and_eq_true, beq_iff_eq] at h
  exact h.1

theorem jobReady_sched {now : Nat} {j : MeetingJob} {t : Nat}
    (h : jobReady now j = true) (ht : j.scheduledTime = some t) : t ≤ now := by
  unfold jobReady at h
  rw [ht] at h
  simp only [Bool.and_eq_true, decide_eq_true_eq] at h
  exact h.2

theorem jobReady_of_none {now : Nat} {j : MeetingJob}
    (hs : j.status = JStatus.queued) (ht : j.scheduledTime = none) :
    jobReady now j = true := by
  unfold jobReady
  rw [ht, hs]
  simp

/-! ### `findJob` / `setJob` algebra -/

theorem findJob_setJob_self (jobs : List MeetingJob) (id : Nat)
    (f : MeetingJob → MeetingJob) (hf : ∀ j, (f j).id = j.id) :
    findJob (setJob jobs id f) id = (findJob jobs id).map f := by
  induction jobs with
  | nil => rfl
  | cons a l ih =>
    simp only [setJob, List.map_cons, findJob] at *
    by_cases h : a.id = id
    · rw [if_pos (by simpa using h)]
      rw [List.find?_cons_of_pos _ (by simp [hf, h]),
          List.find?_cons_of_pos _ (by simp [h])]
      rfl
    · rw [if_neg (by simpa using h)]
      rw [List.find?_cons_of_neg _ (by simp [h]),
          List.find?_cons_of_neg _ (by simp [h])]
      exact ih

theorem findJob_setJob_ne (jobs : List MeetingJob) (id id' : Nat)
    (f : MeetingJob → MeetingJob) (hf : ∀ j, (f j).id = j.id)
    (hne : id ≠ id') :
    findJob (setJob jobs id f) id' = findJob jobs id' := by
  induction jobs with
  | nil => rfl
  | cons a l ih =>
    simp only [setJob, List.map_cons, findJob] at *
    by_cases h : a.id = id
    · rw [if_pos (by simpa using h)]
      rw [List.find?_cons_of_neg _ (by simp [hf, h]; exact fun hh => hne hh),
          List.find?_cons_of_neg _ (by simp [h]; exact fun hh => hne hh)]
      exact ih
    · rw [if_neg (by simpa using h)]
      by_cases h2 : a.id = id'
      · rw [List.find?_cons_of_pos _ (by simp [h2]),
            List.find?_cons_of_pos _ (by simp [h2])]
      · rw [List.find?_cons_of_neg _ (by simp [h2]),
            List.find?_cons_of_neg _ (by simp [h2])]
        exact ih

theorem findJob_of_mem {jobs : List MeetingJob}
    (hs : jobs.Pairwise (fun a b => a.id < b.id)) {j : MeetingJob}
    (hj : j ∈ jobs) : findJob jobs j.id = some j := by
  induction jobs with
  | nil => cases hj
  | cons a l ih =>
    rcases List.mem_cons.mp hj with rfl | hj'
    · exact List.find?_cons_of_pos _ (by simp)
    · have ha : a.id < j.id := (List.pairwise_cons.mp hs).1 j hj'
      rw [findJob, List.find?_cons_of_neg _ (by simp; omega)]
      exact ih (List.pairwise_cons.mp hs).2 hj'

theorem findJob_some {jobs : List MeetingJob} {id : Nat} {j : MeetingJob}
    (h : findJob jobs id = some j) : j ∈ jobs ∧ j.id = id := by
  refine ⟨List.mem_of_find?_eq_some h, ?_⟩
  have := List.find?_some h
  simpa using this

theorem findJob_append (l1 l2 : List MeetingJob) (id : Nat) :
    findJob (l1 ++ l2) id = (findJob l1 id).or (findJob l2 id) := by
  simp [findJob, List.find?_append]

theorem length_setJob (jobs : List MeetingJob) (id : Nat)
    (f : MeetingJob → MeetingJob) : (setJob jobs id f).length = jobs.length := by
  simp [setJob]

theorem mem_setJob {jobs : List MeetingJob} {id : Nat}
    {f : MeetingJob → MeetingJob} {x : MeetingJob}
    (hx : x ∈ setJob jobs id f) :
    ∃ y ∈ jobs, x = y ∨ (y.id = id ∧ x = f y) := by
  rcases List.mem_map.mp hx with ⟨y, hy, hxy⟩
  by_cases h : y.id = id
  · exact ⟨y, hy, Or.inr ⟨h, by rw [← hxy]; simp [h]⟩⟩
  · exact ⟨y, hy, Or.inl (by rw [← hxy]; simp [h])⟩

theorem setJob_pairwise {jobs : List MeetingJob} {id : Nat}
    {f : MeetingJob → MeetingJob} (hf : ∀ j, (f j).id = j.id)
    (hs : jobs.Pairwise (fun a b => a.id < b.id)) :
    (setJob jobs id f).Pairwise (fun a b => a.id < b.id) := by
  unfold setJob
  rw [List.pairwise_map]
  refine hs.imp ?_
  intro a b hab
  by_cases ha : a.id = id <;> by_cases hb : b.id = id <;>
    simp [ha, hb, hf, hab] <;> omega

/-! ### `stageIn` / `setStage` / `removeDriver` / `acqIds` algebra -/

theorem stageIn_cons_self (d : List (Nat × DriverStage)) (id : Nat)
    (st : DriverStage) : stageIn ((id, st) :: d) id = some st := by
  simp [stageIn, List.find?_cons_of_pos]

theorem stageIn_cons_ne (d : List (Nat × DriverStage)) {id id' : Nat}
    (st : DriverStage) (h : id ≠ id') :
    stageIn ((id, st) :: d) id' = stageIn d id' := by
  unfold stageIn
  rw [List.find?_cons_of_neg _ (by simp [h])]

theorem stageIn_setStage_self (d : List (Nat × DriverStage)) (id : Nat)
    (st : DriverStage) :
    stageIn (setStage d id st) id = (stageIn d id).map (fun _ => st) := by
  induction d with
  | nil => rfl
  | cons a l ih =>
    simp only [setStage, List.map_cons] at *
    by_cases h : a.1 = id
    · rw [if_pos (by simpa using h)]
      unfold stageIn
      rw [List.find?_cons_of_pos _ (by simp [h]), List.find?_cons_of_pos _ (by simp [h])]
      rfl
    · rw [if_neg (by simpa using h)]
      rw [stageIn_cons_ne _ _ h, stageIn_cons_ne _ _ h] at *
      exact ih

theorem stageIn_setStage_ne (d : List (Nat × DriverStage)) {id id' : Nat}
    (st : DriverStage) (h : id ≠ id') :
    stageIn (setStage d id st) id' = stageIn d id' := by
  induction d with
  | nil => rfl
  | cons a l ih =>
    simp only [setStage, List.map_cons] at *
    by_cases ha : a.1 = id
    · rw [if_pos (by simpa using ha)]
      rw [stageIn_cons_ne _ _ (show a.1 ≠ id' by rw [ha]; exact h)]
      rw [show a = (a.1, a.2) from rfl,
          stageIn_cons_ne _ _ (show a.1 ≠ id' by rw [ha]; exact h)]
      exact ih
    · rw [if_neg (by simpa using ha)]
      by_cases h2 : a.1 = id'
      · unfold stageIn
        rw [List.find?_cons_of_pos _ (by simp [h2]),
            List.find?_cons_of_pos _ (by simp [h2])]
      · rw [show a = (a.1, a.2) from rfl, stageIn_cons_ne _ _ h2,
            stageIn_cons_ne _ _ h2]
        exact ih

theorem stageIn_removeDriver_self (d : List (Nat × DriverStage)) (id : Nat) :
    stageIn (removeDriver d id) id = none := by
  unfold stageIn
  rw [show (removeDriver d id).find? (fun p => p.1 == id) = none from ?_]
  · rfl
  · rw [List.find?_eq_none]
    intro x hx
    have := List.of_mem_filter hx
    simpa using this

theorem stageIn_removeDriver_ne (d : List (Nat × DriverStage)) {id id' : Nat}
    (h : id ≠ id') :
    stageIn (removeDriver d id) id' = stageIn d id' := by
  induction d with
  | nil => rfl
  | cons a l ih =>
    simp only [removeDriver, List.filter_cons] at *
    by_cases ha : a.1 = id
    · rw [if_neg (by simp [ha])]
      rw [show a = (a.1, a.2) from rfl, stageIn_cons_ne _ _ (ha ▸ h)]
      exact ih
    · rw [if_pos (by simp [ha])]
      by_cases h2 : a.1 = id'
      · unfold stageIn
        rw [List.find?_cons_of_pos _ (by simp [h2]),
            List.find?_cons_of_pos _ (by simp [h2])]
      · rw [show a = (a.1, a.2) from rfl, stageIn_cons_ne _ _ h2,
            stageIn_cons_ne _ _ h2]
        exact ih

theorem keyIds_setStage (d : List (Nat × DriverStage)) (id : Nat)
    (st : DriverStage) : keyIds (setStage d id st) = keyIds d := by
  unfold keyIds setStage
  rw [List.map_map]
  congr 1
  funext p
  by_cases h : p.1 = id <;> simp [h]

theorem removeDriver_sublist (d : List (Nat × DriverStage)) (id : Nat) :
    (removeDriver d id).Sublist d := List.filter_sublist d

theorem keyIds_removeDriver_sublist (d : List (Nat × DriverStage)) (id : Nat) :
    (keyIds (removeDriver d id)).Sublist (keyIds d) :=
  List.Sublist.map _ (removeDriver_sublist d id)

theorem mem_stageIn {d : List (Nat × DriverStage)} {id : Nat}
    {st : DriverStage} (h : stageIn d id = some st) :
    (id, st) ∈ d ∧ id ∈ keyIds d := by
  unfold stageIn at h
  rcases Option.map_eq_some'.mp h with ⟨p, hp, hps⟩
  have hmem := List.mem_of_find?_eq_some hp
  have hkey : p.1 = id := by simpa using List.find?_some hp
  constructor
  · rw [show (id, st) = p from ?_]
    · exact hmem
    · rw [← hkey, ← hps]
  · exact List.mem_map.mpr ⟨p, hmem, hkey⟩

theorem stageIn_mem_keyIds {d : List (Nat × DriverStage)} {id : Nat}
    (h : id ∈ keyIds d) : ∃ st, stageIn d id = some st := by
  induction d with
  | nil => cases h
  | cons a l ih =>
    by_cases ha : a.1 = id
    · refine ⟨a.2, ?_⟩
      unfold stageIn
      rw [List.find?_cons_of_pos _ (by simp [ha])]
      rfl
    · rcases List.mem_cons.mp h with h1 | h1
      · exact absurd h1.symm (by simpa [keyIds] using ha)
      · rw [show a = (a.1, a.2) from rfl, stageIn_cons_ne _ _ ha]
        exact ih h1

theorem acqIds_cons_acq (d : List (Nat × DriverStage)) (id : Nat) :
    acqIds ((id, DriverStage.acquiring) :: d) = id :: acqIds d := by
  simp [acqIds]

theorem acqIds_cons_other (d : List (Nat × DriverStage)) (id : Nat)
    {st : DriverStage} (h : st ≠ DriverStage.acquiring) :
    acqIds ((id, st) :: d) = acqIds d := by
  simp [acqIds, List.filter_cons, h]

theorem mem_acqIds_of_stage {d : List (Nat × DriverStage)} {id : Nat}
    (h : stageIn d id = some DriverStage.acquiring) :
    id ∈ acqIds d := by
  rcases mem_stageIn h with ⟨hm, _⟩
  exact List.mem_map.mpr ⟨(id, DriverStage.acquiring),
    List.mem_filter.mpr ⟨hm, by simp⟩, rfl⟩

theorem acqIds_sublist_keyIds (d : List (Nat × DriverStage)) :
    (acqIds d).Sublist (keyIds d) := List.Sublist.map _ (List.filter_sublist d)

theorem stage_of_mem_acqIds {d : List (Nat × DriverStage)} {id : Nat}
    (h : id ∈ acqIds d) : ∃ p ∈ d, p.1 = id ∧ p.2 = DriverStage.acquiring := by
  rcases List.mem_map.mp h with ⟨p, hp, hkey⟩
  exact ⟨p, List.mem_of_mem_filter hp, hkey, by simpa using List.of_mem_filter hp⟩

theorem setStage_cons (k : Nat) (v : DriverStage) (l : List (Nat × DriverStage))
    (id : Nat) (st : DriverStage) :
    setStage ((k, v) :: l) id st =
      (if k = id then (k, st) else (k, v)) :: setStage l id st := by
  simp only [setStage, List.map_cons]
  by_cases h : k = id
  · rw [if_pos (by simpa using h), if_pos h]
  · rw [if_neg (by simpa using h), if_neg h]

theorem removeDriver_cons (k : Nat) (v : DriverStage)
    (l : List (Nat × DriverStage)) (id : Nat) :
    removeDriver ((k, v) :: l) id =
      if k = id then removeDriver l id else (k, v) :: removeDriver l id := by
  simp only [removeDriver, List.filter_cons]
  by_cases h : k = id
  · rw [if_neg (by simp [h]), if_pos h]
  · rw [if_pos (by simp [h]), if_neg h]

theorem setStage_of_not_mem {d : List (Nat × DriverStage)} {id : Nat}
    (h : id ∉ keyIds d) (st : DriverStage) : setStage d id st = d := by
  induction d with
  | nil => rfl
  | cons a l ih =>
    obtain ⟨k, v⟩ := a
    have hk : k ≠ id := fun hh => h (by simp [keyIds, hh])
    have h2 : id ∉ keyIds l := fun hm => h (by simp [keyIds] at hm ⊢; exact Or.inr hm)
    rw [setStage_cons, if_neg hk, ih h2]

theorem mem_setStage {d : List (Nat × DriverStage)} {id : Nat}
    {st : DriverStage} {p : Nat × DriverStage} (hp : p ∈ setStage d id st) :
    p ∈ d ∨ (p.1 = id ∧ p.2 = st) := by
  rcases List.mem_map.mp hp with ⟨q, hq, hqp⟩
  by_cases h : q.1 = id
  · right
    rw [← hqp, if_pos (by simpa using h)]
    exact ⟨h, rfl⟩
  · left
    rw [← hqp, if_neg (by simpa using h)]
    exact hq

theorem acqIds_setStage_erase {d : List (Nat × DriverStage)} {id : Nat}
    {st : DriverStage} (hst : st ≠ DriverStage.acquiring)
    (hn : (keyIds d).Nodup) (h : stageIn d id = some DriverStage.acquiring) :
    acqIds (setStage d id st) = (acqIds d).erase id := by
  induction d with
  | nil => cases h
  | cons a l ih =>
    obtain ⟨k, v⟩ := a
    have hn' : (keyIds l).Nodup := (List.nodup_cons.mp hn).2
    have hax : k ∉ keyIds l := by
      simpa [keyIds] using (List.nodup_cons.mp hn).1
    by_cases hk : k = id
    · subst hk
      have hacq : v = DriverStage.acquiring := by
        unfold stageIn at h
        rw [List.find?_cons_of_pos _ (by simp)] at h
        simpa using h
      subst hacq
      rw [setStage_cons, if_pos rfl, setStage_of_not_mem hax,
          acqIds_cons_other _ _ hst, acqIds_cons_acq, List.erase_cons_head]
    · have h' : stageIn l id = some DriverStage.acquiring := by
        rw [stageIn_cons_ne _ _ hk] at h
        exact h
      rw [setStage_cons, if_neg hk]
      by_cases hacq : v = DriverStage.acquiring
      · subst hacq
        rw [acqIds_cons_acq, acqIds_cons_acq,
            List.erase_cons_tail (by simpa using hk), ih hn' h']
      · rw [acqIds_cons_other _ _ hacq, acqIds_cons_other _ _ hacq]
        exact ih hn' h'

theorem acqIds_setStage_of_stage_ne {d : List (Nat × DriverStage)} {id : Nat}
    {st0 st : DriverStage} (h : stageIn d id = some st0)
    (h0 : st0 ≠ DriverStage.acquiring) (hst : st ≠ DriverStage.acquiring)
    (hn : (keyIds d).Nodup) : acqIds (setStage d id st) = acqIds d := by
  induction d with
  | nil => cases h
  | cons a l ih =>
    obtain ⟨k, v⟩ := a
    have hn' : (keyIds l).Nodup := (List.nodup_cons.mp hn).2
    have hax : k ∉ keyIds l := by
      simpa [keyIds] using (List.nodup_cons.mp hn).1
    by_cases hk : k = id
    · subst hk
      have hv : v = st0 := by
        unfold stageIn at h
        rw [List.find?_cons_of_pos _ (by simp)] at h
        simpa using h
      subst hv
      rw [setStage_cons, if_pos rfl, setStage_of_not_mem hax,
          acqIds_cons_other _ _ hst, acqIds_cons_other _ _ h0]
    · have h' : stageIn l id = some st0 := by
        rw [stageIn_cons_ne _ _ hk] at h
        exact h
      rw [setStage_cons, if_neg hk]
      by_cases hacq : v = DriverStage.acquiring
      · subst hacq
        rw [acqIds_cons_acq, acqIds_cons_acq, ih h' hn']
      · rw [acqIds_cons_other _ _ hacq, acqIds_cons_other _ _ hacq]
        exact ih h' hn'

theorem acqIds_removeDriver (d : List (Nat × DriverStage)) (id : Nat) :
    acqIds (removeDriver d id) = (acqIds d).filter (fun x => x != id) := by
  induction d with
  | nil => rfl
  | cons a l ih =>
    obtain ⟨k, v⟩ := a
    rw [removeDriver_cons]
    by_cases hk : k = id
    · subst hk
      rw [if_pos rfl]
      by_cases hacq : v = DriverStage.acquiring
      · subst hacq
        rw [acqIds_cons_acq, List.filter_cons, if_neg (by simp), ih]
      · rw [acqIds_cons_other _ _ hacq, ih]
    · rw [if_neg hk]
      by_cases hacq : v = DriverStage.acquiring
      · subst hacq
        rw [acqIds_cons_acq, acqIds_cons_acq, List.filter_cons,
            if_pos (by simp [hk]), ih]
      · rw [acqIds_cons_other _ _ hacq, acqIds_cons_other _ _ hacq, ih]

/-! ### Frame and status lemmas for the dispatch loop -/

theorem dispatchOne_frame (s : QState) (id : Nat) :
    (dispatchOne s id).activeSessions = s.activeSessions ∧
    (dispatchOne s id).now = s.now ∧
    (dispatchOne s id).maxConcurrent = s.maxConcurrent ∧
    (dispatchOne s id).timers = s.timers ∧
    (dispatchOne s id).recFlags = s.recFlags ∧
    (dispatchOne s id).hasProcessor = s.hasProcessor :=
  ⟨rfl, rfl, rfl, rfl, rfl, rfl⟩

theorem dispatchLoop_frame (L : List Nat) (s : QState) :
    (dispatchLoop s L).activeSessions = s.activeSessions ∧
    (dispatchLoop s L).now = s.now ∧
    (dispatchLoop s L).maxConcurrent = s.maxConcurrent ∧
    (dispatchLoop s L).timers = s.timers ∧
    (dispatchLoop s L).recFlags = s.recFlags ∧
    (dispatchLoop s L).hasProcessor = s.hasProcessor := by
  induction L generalizing s with
  | nil => exact ⟨rfl, rfl, rfl, rfl, rfl, rfl⟩
  | cons id rest ih =>
    unfold dispatchLoop
    by_cases h : s.maxConcurrent ≤ s.activeJobs.length
    · rw [if_pos h]
      exact ⟨rfl, rfl, rfl, rfl, rfl, rfl⟩
    · rw [if_neg h]
      exact ih (dispatchOne s id)

theorem getJob_dispatchOne_ne (s : QState) {id id' : Nat} (h : id ≠ id') :
    getJob (dispatchOne s id) id' = getJob s id' := by
  simp only [getJob, dispatchOne]
  exact findJob_setJob_ne _ _ _ _ (fun j => rfl) h

theorem getJob_dispatchOne_self (s : QState) (id : Nat) :
    getJob (dispatchOne s id) id = (getJob s id).map (fun j =>
      { j with status := JStatus.processing, startedAt := some s.now }) := by
  simp only [getJob, dispatchOne]
  exact findJob_setJob_self _ _ _ (fun j => rfl)

theorem getJob_dispatchLoop_not_mem (L : List Nat) (s : QState) (id : Nat)
    (h : id ∉ L) : getJob (dispatchLoop s L) id = getJob s id := by
  induction L generalizing s with
  | nil => rfl
  | cons id0 rest ih =>
    unfold dispatchLoop
    by_cases hc : s.maxConcurrent ≤ s.activeJobs.length
    · rw [if_pos hc]
    · rw [if_neg hc]
      have hne : id0 ≠ id := fun hh => h (hh ▸ List.mem_cons_self id0 rest)
      rw [ih (dispatchOne s id0) (fun hm => h (List.mem_cons_of_mem _ hm))]
      exact getJob_dispatchOne_ne s hne

theorem dispatchLoop_getJob_some (L : List Nat) (s : QState) (id : Nat)
    {j : MeetingJob} (h : getJob s id = some j) :
    getJob (dispatchLoop s L) id = some j ∨
      getJob (dispatchLoop s L) id =
        some { j with status := JStatus.processing, startedAt := some s.now } := by
  induction L generalizing s j with
  | nil => exact Or.inl h
  | cons id0 rest ih =>
    unfold dispatchLoop
    by_cases hc : s.maxConcurrent ≤ s.activeJobs.length
    · rw [if_pos hc]
      exact Or.inl h
    · rw [if_neg hc]
      by_cases hid : id0 = id
      · subst hid
        have h1 : getJob (dispatchOne s id0) id0 =
            some { j with status := JStatus.processing, startedAt := some s.now } := by
          rw [getJob_dispatchOne_self, h]
          rfl
        rcases ih (dispatchOne s id0) h1 with h2 | h2
        · exact Or.inr h2
        · exact Or.inr h2
      · have h1 : getJob (dispatchOne s id0) id = some j := by
          rw [getJob_dispatchOne_ne s hid]
          exact h
        exact ih (dispatchOne s id0) h1

theorem dispatchLoop_status_back (L : List Nat) (s : QState) (id : Nat)
    {j' : MeetingJob} (h : getJob (dispatchLoop s L) id = some j') :
    getJob s id = some j' ∨
      ∃ j, getJob s id = some j ∧
        j' = { j with status := JStatus.processing, startedAt := some s.now } := by
  induction L generalizing s j' with
  | nil => exact Or.inl h
  | cons id0 rest ih =>
    rw [dispatchLoop] at h
    by_cases hc : s.maxConcurrent ≤ s.activeJobs.length
    · rw [if_pos hc] at h
      exact Or.inl h
    · rw [if_neg hc] at h
      rcases ih (dispatchOne s id0) h with h1 | ⟨j1, h1, hj1⟩
      · by_cases hid : id0 = id
        · subst hid
          rw [getJob_dispatchOne_self] at h1
          rcases Option.map_eq_some'.mp h1 with ⟨j0, hj0, hj0'⟩
          exact Or.inr ⟨j0, hj0, hj0'.symm⟩
        · rw [getJob_dispatchOne_ne s hid] at h1
          exact Or.inl h1
      · by_cases hid : id0 = id
        · subst hid
          rw [getJob_dispatchOne_self] at h1
          rcases Option.map_eq_some'.mp h1 with ⟨j0, hj0, hj0'⟩
          refine Or.inr ⟨j0, hj0, ?_⟩
          rw [hj1, ← hj0']
          rfl
        · rw [getJob_dispatchOne_ne s hid] at h1
          exact Or.inr ⟨j1, h1, hj1⟩

theorem dispatchLoop_jobs_length (L : List Nat) (s : QState) :
    (dispatchLoop s L).jobs.length = s.jobs.length := by
  induction L generalizing s with
  | nil => rfl
  | cons id rest ih =>
    unfold dispatchLoop
    by_cases hc : s.maxConcurrent ≤ s.activeJobs.length
    · rw [if_pos hc]
    · rw [if_neg hc]
      rw [ih (dispatchOne s id)]
      exact length_setJob _ _ _

theorem dispatchLoop_jobs_mem (L : List Nat) (s : QState) {x : MeetingJob}
    (hx : x ∈ (dispatchLoop s L).jobs) :
    ∃ y ∈ s.jobs, x = y ∨
      x = { y with status := JStatus.processing, startedAt := some s.now } := by
  induction L generalizing s with
  | nil => exact ⟨x, hx, Or.inl rfl⟩
  | cons id rest ih =>
    rw [dispatchLoop] at hx
    by_cases hc : s.maxConcurrent ≤ s.activeJobs.length
    · rw [if_pos hc] at hx
      exact ⟨x, hx, Or.inl rfl⟩
    · rw [if_neg hc] at hx
      rcases ih (dispatchOne s id) hx with ⟨y, hy, hxy⟩
      rcases mem_setJob hy with ⟨z, hz, hyz⟩
      refine ⟨z, hz, ?_⟩
      rcases hyz with h1 | ⟨_, h1⟩
      · rcases hxy with h3 | h3
        · exact Or.inl (h3.trans h1)
        · rw [h3, h1]
          exact Or.inr rfl
      · rcases hxy with h3 | h3
        · rw [h3, h1]
          exact Or.inr rfl
        · rw [h3, h1]
          exact Or.inr rfl

theorem dispatchLoop_pairwise (L : List Nat) (s : QState)
    (h : s.jobs.Pairwise (fun a b => a.id < b.id)) :
    (dispatchLoop s L).jobs.Pairwise (fun a b => a.id < b.id) := by
  induction L generalizing s with
  | nil => exact h
  | cons id rest ih =>
    unfold dispatchLoop
    by_cases hc : s.maxConcurrent ≤ s.activeJobs.length
    · rw [if_pos hc]
      exact h
    · rw [if_neg hc]
      exact ih (dispatchOne s id) (setJob_pairwise (fun j => rfl) h)

theorem dispatchLoop_active_mem (L : List Nat) (s : QState) {x : Nat}
    (hx : x ∈ (dispatchLoop s L).activeJobs) : x ∈ s.activeJobs ∨ x ∈ L := by
  induction L generalizing s with
  | nil => exact Or.inl hx
  | cons id rest ih =>
    rw [dispatchLoop] at hx
    by_cases hc : s.maxConcurrent ≤ s.activeJobs.length
    · rw [if_pos hc] at hx
      exact Or.inl hx
    · rw [if_neg hc] at hx
      rcases ih (dispatchOne s id) hx with h1 | h1
      · rcases mem_insertKey.mp h1 with rfl | h2
        · exact Or.inr (List.mem_cons_self _ _)
        · exact Or.inl h2
      · exact Or.inr (List.mem_cons_of_mem _ h1)

theorem dispatchLoop_active_sup (L : List Nat) (s : QState) {x : Nat}
    (hx : x ∈ s.activeJobs) : x ∈ (dispatchLoop s L).activeJobs := by
  induction L generalizing s with
  | nil => exact hx
  | cons id rest ih =>
    unfold dispatchLoop
    by_cases hc : s.maxConcurrent ≤ s.activeJobs.length
    · rw [if_pos hc]
      exact hx
    · rw [if_neg hc]
      exact ih (dispatchOne s id) (mem_insertKey.mpr (Or.inr hx))

/-! ### Invariant preservation for a single dispatch iteration -/

theorem getJob_unique {s : QState} (hI : SysInv s) {id : Nat}
    {j : MeetingJob} (hj : getJob s id = some j) {y : MeetingJob}
    (hy : y ∈ s.jobs) (hyid : y.id = id) : y = j := by
  have h1 := findJob_of_mem hI.idsSorted hy
  rw [hyid] at h1
  have h2 : some y = some j := h1.symm.trans hj
  injection h2

theorem dispatchOne_inv {s : QState} {id : Nat} (hI : SysInv s)
    (hcap : s.activeJobs.length < s.maxConcurrent)
    {j : MeetingJob} (hj : getJob s id = some j)
    (hready : jobReady s.now j = true)
    (hmin : ∀ id' j', getJob s id' = some j' → jobReady s.now j' = true →
      id ≤ id') :
    SysInv (dispatchOne s id) ∧
      (dispatchOne s id).drivers = (id, DriverStage.acquiring) :: s.drivers := by
  have hqueued : j.status = JStatus.queued := jobReady_status hready
  have hidna : id ∉ s.activeJobs := by
    intro hmem
    rcases hI.activeJob id hmem with ⟨j2, hj2, hj2s⟩
    rw [hj] at hj2
    obtain rfl : j = j2 := by injection hj2
    exact hj2s hqueued
  have hidnd : id ∉ driverIds s := by
    intro hmem
    rcases hI.driverJob id hmem with ⟨j2, hj2, hj2s⟩
    rw [hj] at hj2
    obtain rfl : j = j2 := by injection hj2
    exact hj2s hqueued
  have hocc_len : (occupancy s).length ≤ s.activeJobs.length :=
    nodup_length_le_of_sub hI.occNodup hI.occSub
  have hocc_split : (occupancy s).length =
      s.activeSessions.length + (acquiringIds s).length := by
    simp [occupancy]
  have hsess_len : s.activeSessions.length < s.maxConcurrent := by omega
  have hidns : id ∉ s.activeSessions := by
    intro hmem
    exact hidna (hI.occSub id (List.mem_append_left _ hmem))
  have hdr : (dispatchOne s id).drivers =
      (id, DriverStage.acquiring) :: s.drivers := by
    simp only [dispatchOne]
    rw [if_neg hidns, if_neg (show ¬s.maxConcurrent ≤ s.activeSessions.length
      by omega)]
  have hocc' : occupancy (dispatchOne s id) =
      s.activeSessions ++ (id :: acquiringIds s) := by
    unfold occupancy acquiringIds
    rw [hdr, acqIds_cons_acq]
    rfl
  have hidnocc : id ∉ occupancy s := fun hm => hidna (hI.occSub id hm)
  have hdrIds : driverIds (dispatchOne s id) = id :: driverIds s := by
    unfold driverIds keyIds
    rw [hdr, List.map_cons]
  refine ⟨⟨?_, ?_, ?_, ?_, ?_, ?_, ?_, ?_, ?_, ?_, ?_, ?_, ?_, ?_⟩, hdr⟩
  · -- idLt
    intro x hx
    rcases mem_setJob hx with ⟨y, hy, hxy⟩
    have hxid : x.id = y.id := by
      rcases hxy with rfl | ⟨_, rfl⟩ <;> rfl
    show x.id < (setJob s.jobs id _).length
    rw [length_setJob, hxid]
    exact hI.idLt y hy
  · -- idsSorted
    exact setJob_pairwise (fun j => rfl) hI.idsSorted
  · -- activeNodup
    show (insertKey s.activeJobs id).Nodup
    rw [insertKey_of_not_mem hidna]
    exact List.nodup_cons.mpr ⟨hidna, hI.activeNodup⟩
  · -- activeLe
    show (insertKey s.activeJobs id).length ≤ s.maxConcurrent
    rw [insertKey_of_not_mem hidna]
    simp only [List.length_cons]
    omega
  · -- occNodup
    rw [hocc']
    refine (List.perm_middle).nodup_iff.mpr ?_
    exact List.nodup_cons.mpr ⟨hidnocc, hI.occNodup⟩
  · -- occSub
    intro x hx
    rw [hocc'] at hx
    show x ∈ insertKey s.activeJobs id
    rw [insertKey_of_not_mem hidna]
    rcases List.mem_append.mp hx with h1 | h1
    · exact List.mem_cons_of_mem _ (hI.occSub x (List.mem_append_left _ h1))
    · rcases List.mem_cons.mp h1 with rfl | h2
      · exact List.mem_cons_self _ _
      · exact List.mem_cons_of_mem _ (hI.occSub x (List.mem_append_right _ h2))
  · -- driversNodup
    rw [hdrIds]
    exact List.nodup_cons.mpr ⟨hidnd, hI.driversNodup⟩
  · -- timersNodup
    exact hI.timersNodup
  · -- activeJob
    intro x hx
    rw [show (dispatchOne s id).activeJobs = insertKey s.activeJobs id from rfl,
        insertKey_of_not_mem hidna] at hx
    rcases List.mem_cons.mp hx with rfl | h2
    · refine ⟨{ j with status := JStatus.processing, startedAt := some s.now },
        ?_, by simp⟩
      rw [getJob_dispatchOne_self, hj]
      rfl
    · rcases hI.activeJob x h2 with ⟨j2, hj2, hs2⟩
      have hne : id ≠ x := fun hh => hidna (hh ▸ h2)
      exact ⟨j2, by rw [getJob_dispatchOne_ne s hne]; exact hj2, hs2⟩
  · -- driverJob
    intro x hx
    rw [hdrIds] at hx
    rcases List.mem_cons.mp hx with rfl | h2
    · refine ⟨{ j with status := JStatus.processing, startedAt := some s.now },
        ?_, by simp⟩
      rw [getJob_dispatchOne_self, hj]
      rfl
    · rcases hI.driverJob x h2 with ⟨j2, hj2, hs2⟩
      have hne : id ≠ x := fun hh => hidnd (hh ▸ h2)
      exact ⟨j2, by rw [getJob_dispatchOne_ne s hne]; exact hj2, hs2⟩
  · -- timerJob
    intro x hx
    rcases hI.timerJob x hx with ⟨j2, hj2⟩
    by_cases hne : id = x
    · subst hne
      exact ⟨{ j with status := JStatus.processing, startedAt := some s.now },
        by rw [getJob_dispatchOne_self, hj]; rfl⟩
    · exact ⟨j2, by rw [getJob_dispatchOne_ne s hne]; exact hj2⟩
  · -- noCapNull
    intro pr hpr
    rw [hdr] at hpr
    rcases List.mem_cons.mp hpr with rfl | h2
    · simp
    · exact hI.noCapNull pr h2
  · -- schedFuture
    intro x hx t hts hlt
    rcases mem_setJob hx with ⟨y, hy, hxy⟩
    rcases hxy with h1 | ⟨hyid, h1⟩
    · rw [h1] at hts ⊢
      exact hI.schedFuture y hy t hts hlt
    · have hyj : y = j := getJob_unique hI hj hy hyid
      exfalso
      rw [h1] at hts
      have hts' : j.scheduledTime = some t := by
        rw [← hyj]
        simpa using hts
      have h2 := jobReady_sched hready hts'
      have hlt' : s.now < t := hlt
      omega
  · -- fifo
    intro id1 id2 j1' j2' h12 hg1 hg2 hn1 hn2 hq1
    by_cases he1 : id = id1
    · subst he1
      rw [getJob_dispatchOne_self, hj] at hg1
      injection hg1 with hinj
      rw [← hinj] at hq1
      simp at hq1
    · by_cases he2 : id = id2
      · subst he2
        exfalso
        rw [getJob_dispatchOne_ne s he1] at hg1
        have hr1 : jobReady s.now j1' = true := jobReady_of_none hq1 hn1
        have := hmin id1 j1' hg1 hr1
        omega
      · rw [getJob_dispatchOne_ne s he1] at hg1
        rw [getJob_dispatchOne_ne s he2] at hg2
        exact hI.fifo id1 id2 j1' j2' h12 hg1 hg2 hn1 hn2 hq1

/-! ### Invariant preservation for the full dispatch pass -/

theorem loopOk_tail {s : QState} {id : Nat} {rest : List Nat}
    (h : LoopOk s (id :: rest))
    (hcap : ¬s.maxConcurrent ≤ s.activeJobs.length) :
    LoopOk (dispatchOne s id) rest := by
  obtain ⟨j, hj, hready⟩ := h.mem id (List.mem_cons_self _ _)
  have hsorted := List.pairwise_cons.mp h.sorted
  have hmin : ∀ id' j', getJob s id' = some j' →
      jobReady s.now j' = true → id ≤ id' := by
    intro id' j' h1 h2
    rcases List.mem_cons.mp (h.all id' j' h1 h2) with rfl | hm
    · exact le_refl _
    · exact le_of_lt (hsorted.1 id' hm)
  obtain ⟨hinv1, hdr⟩ :=
    dispatchOne_inv h.inv (lt_of_not_le hcap) hj hready hmin
  refine ⟨hinv1, ?_, ?_, hsorted.2⟩
  · intro id' hid'
    have hne : id ≠ id' := by
      intro hh
      subst hh
      exact absurd (hsorted.1 id hid') (lt_irrefl id)
    obtain ⟨j', hj', hr'⟩ := h.mem id' (List.mem_cons_of_mem _ hid')
    refine ⟨j', ?_, hr'⟩
    rw [getJob_dispatchOne_ne s hne]
    exact hj'
  · intro id' j' h1 h2
    by_cases hne : id = id'
    · subst hne
      rw [getJob_dispatchOne_self s id, hj] at h1
      exfalso
      injection h1 with hinj
      have h2' : jobReady s.now j' = true := h2
      rw [← hinj] at h2'
      unfold jobReady at h2'
      simp at h2'
    · rw [getJob_dispatchOne_ne s hne] at h1
      have h2' : jobReady s.now j' = true := h2
      rcases List.mem_cons.mp (h.all id' j' h1 h2') with rfl | hm
      · exact absurd rfl hne
      · exact hm

theorem dispatchLoop_inv (L : List Nat) (s : QState) (h : LoopOk s L) :
    SysInv (dispatchLoop s L) := by
  induction L generalizing s with
  | nil => exact h.inv
  | cons id rest ih =>
    unfold dispatchLoop
    by_cases hcap : s.maxConcurrent ≤ s.activeJobs.length
    · rw [if_pos hcap]
      exact h.inv
    · rw [if_neg hcap]
      exact ih (dispatchOne s id) (loopOk_tail h hcap)

theorem futurePending_nodup {s : QState} (hI : SysInv s) :
    (futurePending s).Nodup := by
  unfold futurePending
  refine List.pairwise_map.mpr ?_
  refine List.Pairwise.imp (fun hab => Nat.ne_of_lt hab) ?_
  exact List.Pairwise.sublist (List.filter_sublist _) hI.idsSorted

theorem futurePending_props {s : QState} {x : Nat} (hx : x ∈ futurePending s) :
    x ∉ s.timers ∧ ∃ j ∈ s.jobs, j.id = x := by
  unfold futurePending at hx
  rcases List.mem_map.mp hx with ⟨j, hj, hjx⟩
  have hmem := List.mem_of_mem_filter hj
  have hcond := List.of_mem_filter hj
  rw [Bool.and_eq_true, Bool.and_eq_true] at hcond
  have hnt : x ∉ s.timers := by
    have := hcond.2
    rw [← hjx]
    simpa using this
  exact ⟨hnt, j, hmem, hjx⟩

theorem scheduleUpcoming_inv {s : QState} (hI : SysInv s) :
    SysInv (scheduleUpcoming s) := by
  refine ⟨hI.idLt, hI.idsSorted, hI.activeNodup, hI.activeLe, hI.occNodup,
    hI.occSub, hI.driversNodup, ?_, hI.activeJob, hI.driverJob, ?_,
    hI.noCapNull, hI.schedFuture, hI.fifo⟩
  · show (s.timers ++ futurePending s).Nodup
    refine List.Nodup.append hI.timersNodup (futurePending_nodup hI) ?_
    intro a ha hfp
    exact (futurePending_props hfp).1 ha
  · intro x hx
    rcases List.mem_append.mp hx with h1 | h1
    · exact hI.timerJob x h1
    · rcases (futurePending_props h1).2 with ⟨j, hjm, hjx⟩
      refine ⟨j, ?_⟩
      show findJob s.jobs x = some j
      rw [← hjx]
      exact findJob_of_mem hI.idsSorted hjm

theorem loopOk_readyIds {s : QState} (hI : SysInv s) : LoopOk s (readyIds s) := by
  refine ⟨hI, ?_, ?_, ?_⟩
  · intro id hid
    unfold readyIds at hid
    rcases List.mem_map.mp hid with ⟨j, hj, hjid⟩
    have hmem := List.mem_of_mem_filter hj
    have hready := List.of_mem_filter hj
    refine ⟨j, ?_, hready⟩
    show findJob s.jobs id = some j
    rw [← hjid]
    exact findJob_of_mem hI.idsSorted hmem
  · intro id j h1 h2
    unfold readyIds
    obtain ⟨hjm, hjid⟩ := findJob_some h1
    exact List.mem_map.mpr ⟨j, List.mem_filter.mpr ⟨hjm, h2⟩, hjid⟩
  · unfold readyIds
    refine List.pairwise_map.mpr ?_
    exact List.Pairwise.sublist (List.filter_sublist _) hI.idsSorted

theorem dispatchPass_inv {s : QState} (hI : SysInv s) :
    SysInv (dispatchPass s) := by
  unfold dispatchPass
  by_cases hp : s.hasProcessor = true
  · rw [if_pos hp]
    exact scheduleUpcoming_inv (dispatchLoop_inv _ _ (loopOk_readyIds hI))
  · rw [if_neg hp]
    exact hI

/-! ### Shared blocks for steps that mutate one job's record -/

theorem setJob_schedFuture {s : QState} {id : Nat} {f : MeetingJob → MeetingJob}
    (hI : SysInv s) {j : MeetingJob} (hj : getJob s id = some j)
    (hjs : j.status ≠ JStatus.queued)
    (hfsched : ∀ y, (f y).scheduledTime = y.scheduledTime) :
    ∀ x ∈ setJob s.jobs id f, ∀ t, x.scheduledTime = some t → s.now < t →
      x.status = JStatus.queued := by
  intro x hx t hts hlt
  rcases mem_setJob hx with ⟨y, hy, h1 | ⟨hyid, h1⟩⟩
  · rw [h1] at hts ⊢
    exact hI.schedFuture y hy t hts hlt
  · exfalso
    have hyj : y = j := getJob_unique hI hj hy hyid
    have hysched : y.scheduledTime = some t := by
      rw [← hfsched y, ← h1]
      exact hts
    have := hI.schedFuture y hy t hysched hlt
    rw [hyj] at this
    exact hjs this

theorem setJob_fifo {s : QState} {id : Nat} {f : MeetingJob → MeetingJob}
    (hI : SysInv s) {j : MeetingJob} (hj : getJob s id = some j)
    (hjs : j.status ≠ JStatus.queued)
    (hfid : ∀ y, (f y).id = y.id)
    (hfsched : ∀ y, (f y).scheduledTime = y.scheduledTime)
    (hfst : (f j).status ≠ JStatus.queued) :
    ∀ id1 id2 j1 j2, id1 < id2 →
      findJob (setJob s.jobs id f) id1 = some j1 →
      findJob (setJob s.jobs id f) id2 = some j2 → j1.scheduledTime = none →
      j2.scheduledTime = none → j1.status = JStatus.queued →
      j2.status = JStatus.queued := by
  intro id1 id2 j1 j2 h12 hg1 hg2 hn1 hn2 hq1
  by_cases he1 : id = id1
  · subst he1
    rw [findJob_setJob_self _ _ _ hfid,
        show findJob s.jobs id = some j from hj] at hg1
    injection hg1 with hinj
    rw [← hinj] at hq1
    exact absurd hq1 hfst
  · by_cases he2 : id = id2
    · subst he2
      rw [findJob_setJob_self _ _ _ hfid,
          show findJob s.jobs id = some j from hj] at hg2
      injection hg2 with hinj
      exfalso
      rw [findJob_setJob_ne _ _ _ _ hfid he1] at hg1
      have hn2' : j.scheduledTime = none := by
        rw [← hfsched j, hinj]
        exact hn2
      have := hI.fifo id1 id j1 j h12 hg1 hj hn1 hn2' hq1
      exact hjs this
    · rw [findJob_setJob_ne _ _ _ _ hfid he1] at hg1
      rw [findJob_setJob_ne _ _ _ _ hfid he2] at hg2
      exact hI.fifo id1 id2 j1 j2 h12 hg1 hg2 hn1 hn2 hq1

theorem setJob_idLt {s : QState} (id : Nat) (f : MeetingJob → MeetingJob)
    (hI : SysInv s) (hfid : ∀ y, (f y).id = y.id) :
    ∀ x ∈ setJob s.jobs id f, x.id < (setJob s.jobs id f).length := by
  intro x hx
  rcases mem_setJob hx with ⟨y, hy, h1 | ⟨_, h1⟩⟩
  · rw [h1, length_setJob]
    exact hI.idLt y hy
  · rw [h1, hfid, length_setJob]
    exact hI.idLt y hy

/-! ### Invariant preservation for the individual transitions -/

theorem updateStatus_nonqueued_inv {s : QState} {id : Nat} {st : JStatus}
    (hI : SysInv s) {j : MeetingJob} (hj : getJob s id = some j)
    (hjs : j.status ≠ JStatus.queued) (hst : st ≠ JStatus.queued) :
    SysInv (updateJobStatus s id st) := by
  have hfid : ∀ y : MeetingJob, ({ y with status := st } : MeetingJob).id = y.id :=
    fun y => rfl
  have hfsched : ∀ y : MeetingJob,
      ({ y with status := st } : MeetingJob).scheduledTime = y.scheduledTime :=
    fun y => rfl
  refine ⟨?_, ?_, hI.activeNodup, hI.activeLe, hI.occNodup, hI.occSub,
    hI.driversNodup, hI.timersNodup, ?_, ?_, ?_, hI.noCapNull, ?_, ?_⟩
  · exact setJob_idLt id _ hI hfid
  · exact setJob_pairwise hfid hI.idsSorted
  · intro x hx
    rcases hI.activeJob x hx with ⟨j2, hj2, hs2⟩
    by_cases he : id = x
    · subst he
      refine ⟨{ j with status := st }, ?_, hst⟩
      show findJob (setJob s.jobs id _) id = _
      rw [findJob_setJob_self _ _ _ hfid,
          show findJob s.jobs id = some j from hj]
      rfl
    · refine ⟨j2, ?_, hs2⟩
      show findJob (setJob s.jobs id _) x = _
      rw [findJob_setJob_ne _ _ _ _ hfid he]
      exact hj2
  · intro x hx
    rcases hI.driverJob x hx with ⟨j2, hj2, hs2⟩
    by_cases he : id = x
    · subst he
      refine ⟨{ j with status := st }, ?_, hst⟩
      show findJob (setJob s.jobs id _) id = _
      rw [findJob_setJob_self _ _ _ hfid,
          show findJob s.jobs id = some j from hj]
      rfl
    · refine ⟨j2, ?_, hs2⟩
      show findJob (setJob s.jobs id _) x = _
      rw [findJob_setJob_ne _ _ _ _ hfid he]
      exact hj2
  · intro x hx
    rcases hI.timerJob x hx with ⟨j2, hj2⟩
    by_cases he : id = x
    · subst he
      refine ⟨{ j with status := st }, ?_⟩
      show findJob (setJob s.jobs id _) id = _
      rw [findJob_setJob_self _ _ _ hfid,
          show findJob s.jobs id = some j from hj]
      rfl
    · refine ⟨j2, ?_⟩
      show findJob (setJob s.jobs id _) x = _
      rw [findJob_setJob_ne _ _ _ _ hfid he]
      exact hj2
  · exact setJob_schedFuture hI hj hjs hfsched
  · exact setJob_fifo hI hj hjs hfid hfsched hst

theorem recFlags_irrel {s : QState} (hI : SysInv s) (rf : List Nat) :
    SysInv { s with recFlags := rf } :=
  ⟨hI.idLt, hI.idsSorted, hI.activeNodup, hI.activeLe, hI.occNodup, hI.occSub,
   hI.driversNodup, hI.timersNodup, hI.activeJob, hI.driverJob, hI.timerJob,
   hI.noCapNull, hI.schedFuture, hI.fifo⟩

theorem removeDriverState_inv {s : QState} (id : Nat) (hI : SysInv s) :
    SysInv { s with drivers := removeDriver s.drivers id } := by
  have hocc' : occupancy { s with drivers := removeDriver s.drivers id } =
      s.activeSessions ++ (acquiringIds s).filter (fun x => x != id) := by
    unfold occupancy
    show s.activeSessions ++ acqIds (removeDriver s.drivers id) = _
    rw [acqIds_removeDriver]
    rfl
  refine ⟨hI.idLt, hI.idsSorted, hI.activeNodup, hI.activeLe, ?_, ?_,
    ?_, hI.timersNodup, hI.activeJob, ?_, hI.timerJob, ?_, hI.schedFuture,
    hI.fifo⟩
  · rw [hocc']
    exact List.Nodup.sublist
      (List.Sublist.append (List.Sublist.refl _) (List.filter_sublist _))
      hI.occNodup
  · intro x hx
    rw [hocc'] at hx
    rcases List.mem_append.mp hx with h1 | h1
    · exact hI.occSub x (List.mem_append_left _ h1)
    · exact hI.occSub x
        (List.mem_append_right _ (List.mem_of_mem_filter h1))
  · exact List.Nodup.sublist (keyIds_removeDriver_sublist _ _) hI.driversNodup
  · intro x hx
    exact hI.driverJob x ((keyIds_removeDriver_sublist _ _).subset hx)
  · intro pr hpr
    exact hI.noCapNull pr ((removeDriver_sublist _ _).subset hpr)

theorem applyRecordingResult_inv {s : QState} (id : Nat) (ok : Bool)
    (hI : SysInv s) : SysInv (applyRecordingResult s id ok) :=
  recFlags_irrel (removeDriverState_inv id hI) _

theorem keyIds_removeDriver_ne {d : List (Nat × DriverStage)} {id x : Nat}
    (hx : x ∈ keyIds (removeDriver d id)) : x ∈ keyIds d ∧ x ≠ id := by
  rcases List.mem_map.mp hx with ⟨p, hp, hpx⟩
  have h1 := List.of_mem_filter hp
  have h2 := List.mem_of_mem_filter hp
  refine ⟨List.mem_map.mpr ⟨p, h2, hpx⟩, ?_⟩
  rw [← hpx]
  simpa using h1

theorem releasePool_inv {s : QState} (id : Nat) (hI : SysInv s) :
    SysInv (releasePool s id) := by
  refine ⟨hI.idLt, hI.idsSorted, hI.activeNodup, hI.activeLe, ?_, ?_,
    hI.driversNodup, hI.timersNodup, hI.activeJob, hI.driverJob, hI.timerJob,
    hI.noCapNull, hI.schedFuture, hI.fifo⟩
  · show (s.activeSessions.erase id ++ acquiringIds s).Nodup
    exact List.Nodup.sublist
      (List.Sublist.append (List.erase_sublist _ _) (List.Sublist.refl _))
      hI.occNodup
  · intro x hx
    rcases List.mem_append.mp hx with h1 | h1
    · exact hI.occSub x
        (List.mem_append_left _ ((List.erase_sublist _ _).subset h1))
    · exact hI.occSub x (List.mem_append_right _ h1)

theorem failMark_inv {s : QState} {id : Nat} {err : String}
    (hI : SysInv s) {j : MeetingJob} (hj : getJob s id = some j)
    (hjs : j.status ≠ JStatus.queued) (hns : id ∉ s.activeSessions) :
    SysInv (failBookkeeping s id err) := by
  have hfid : ∀ y : MeetingJob, ({ y with status := JStatus.failed, error := some err, completedAt := some s.now } : MeetingJob).id = y.id := fun y => rfl
  have hfsched : ∀ y : MeetingJob, ({ y with status := JStatus.failed, error := some err, completedAt := some s.now } : MeetingJob).scheduledTime = y.scheduledTime := fun y => rfl
  have hocc' : occupancy (failBookkeeping s id err) =
      s.activeSessions ++ (acquiringIds s).filter (fun x => x != id) := by
    unfold occupancy
    show s.activeSessions ++ acqIds (removeDriver s.drivers id) = _
    rw [acqIds_removeDriver]
    rfl
  refine ⟨?_, ?_, ?_, ?_, ?_, ?_, ?_, hI.timersNodup, ?_, ?_, ?_, ?_, ?_, ?_⟩
  · exact setJob_idLt id _ hI hfid
  · exact setJob_pairwise hfid hI.idsSorted
  · exact hI.activeNodup.erase id
  · exact le_trans ((List.erase_sublist id s.activeJobs).length_le) hI.activeLe
  · rw [hocc']
    exact List.Nodup.sublist
      (List.Sublist.append (List.Sublist.refl _) (List.filter_sublist _))
      hI.occNodup
  · intro x hx
    rw [hocc'] at hx
    show x ∈ s.activeJobs.erase id
    rcases List.mem_append.mp hx with h1 | h1
    · have hxne : x ≠ id := fun hh => hns (hh ▸ h1)
      exact (hI.activeNodup.mem_erase_iff).mpr
        ⟨hxne, hI.occSub x (List.mem_append_left _ h1)⟩
    · have hxne : x ≠ id := by
        have := List.of_mem_filter h1
        simpa using this
      exact (hI.activeNodup.mem_erase_iff).mpr
        ⟨hxne, hI.occSub x
          (List.mem_append_right _ (List.mem_of_mem_filter h1))⟩
  · exact List.Nodup.sublist (keyIds_removeDriver_sublist _ _) hI.driversNodup
  · intro x hx
    have hx' := (hI.activeNodup.mem_erase_iff).mp hx
    rcases hI.activeJob x hx'.2 with ⟨j2, hj2, hs2⟩
    refine ⟨j2, ?_, hs2⟩
    show findJob (setJob s.jobs id _) x = _
    rw [findJob_setJob_ne _ _ _ _ hfid (fun hh => hx'.1 hh.symm)]
    exact hj2
  · intro x hx
    obtain ⟨hxd, hxne⟩ := keyIds_removeDriver_ne hx
    rcases hI.driverJob x hxd with ⟨j2, hj2, hs2⟩
    refine ⟨j2, ?_, hs2⟩
    show findJob (setJob s.jobs id _) x = _
    rw [findJob_setJob_ne _ _ _ _ hfid (fun hh => hxne hh.symm)]
    exact hj2
  · intro x hx
    rcases hI.timerJob x hx with ⟨j2, hj2⟩
    by_cases he : id = x
    · subst he
      refine ⟨({ j with status := JStatus.failed, error := some err, completedAt := some s.now } : MeetingJob), ?_⟩
      show findJob (setJob s.jobs id _) id = _
      rw [findJob_setJob_self _ _ _ hfid,
          show findJob s.jobs id = some j from hj]
      rfl
    · refine ⟨j2, ?_⟩
      show findJob (setJob s.jobs id _) x = _
      rw [findJob_setJob_ne _ _ _ _ hfid he]
      exact hj2
  · intro pr hpr
    exact hI.noCapNull pr ((removeDriver_sublist _ _).subset hpr)
  · exact setJob_schedFuture hI hj hjs hfsched
  · exact setJob_fifo hI hj hjs hfid hfsched (by simp)

theorem failDriver_inv {s : QState} {id : Nat} {err : String}
    (hI : SysInv s) {st : DriverStage} (h : stageOf s id = some st) :
    SysInv (failDriver s id err) := by
  have hkey : id ∈ driverIds s := (mem_stageIn h).2
  obtain ⟨j, hj, hjs⟩ := hI.driverJob id hkey
  have hrp : SysInv (releasePool s id) := releasePool_inv id hI
  have hns : id ∉ (releasePool s id).activeSessions := by
    show id ∉ s.activeSessions.erase id
    intro hmem
    have := (hI.occNodup.of_append_left.mem_erase_iff).mp hmem
    exact this.1 rfl
  exact dispatchPass_inv (failMark_inv hrp hj hjs hns)

theorem completeMark_inv {s : QState} {id : Nat}
    (hI : SysInv s) {j : MeetingJob} (hj : getJob s id = some j)
    (hjs : j.status ≠ JStatus.queued) (hns : id ∉ s.activeSessions)
    (hna : id ∉ acquiringIds s) :
    SysInv (completeBookkeeping s id) := by
  have hfid : ∀ y : MeetingJob, ({ y with status := JStatus.completed, completedAt := some s.now } : MeetingJob).id = y.id := fun y => rfl
  have hfsched : ∀ y : MeetingJob, ({ y with status := JStatus.completed, completedAt := some s.now } : MeetingJob).scheduledTime = y.scheduledTime := fun y => rfl
  refine ⟨?_, ?_, ?_, ?_, hI.occNodup, ?_, hI.driversNodup, hI.timersNodup,
    ?_, ?_, ?_, hI.noCapNull, ?_, ?_⟩
  · exact setJob_idLt id _ hI hfid
  · exact setJob_pairwise hfid hI.idsSorted
  · exact hI.activeNodup.erase id
  · exact le_trans ((List.erase_sublist id s.activeJobs).length_le) hI.activeLe
  · intro x hx
    show x ∈ s.activeJobs.erase id
    rcases List.mem_append.mp hx with h1 | h1
    · have hxne : x ≠ id := fun hh => hns (hh ▸ h1)
      exact (hI.activeNodup.mem_erase_iff).mpr
        ⟨hxne, hI.occSub x (List.mem_append_left _ h1)⟩
    · have hxne : x ≠ id := fun hh => hna (hh ▸ h1)
      exact (hI.activeNodup.mem_erase_iff).mpr
        ⟨hxne, hI.occSub x (List.mem_append_right _ h1)⟩
  · intro x hx
    have hx' := (hI.activeNodup.mem_erase_iff).mp hx
    rcases hI.activeJob x hx'.2 with ⟨j2, hj2, hs2⟩
    refine ⟨j2, ?_, hs2⟩
    show findJob (setJob s.jobs id _) x = _
    rw [findJob_setJob_ne _ _ _ _ hfid (fun hh => hx'.1 hh.symm)]
    exact hj2
  · intro x hx
    rcases hI.driverJob x hx with ⟨j2, hj2, hs2⟩
    by_cases he : id = x
    · subst he
      refine ⟨({ j with status := JStatus.completed, completedAt := some s.now } : MeetingJob), ?_, by simp⟩
      show findJob (setJob s.jobs id _) id = _
      rw [findJob_setJob_self _ _ _ hfid,
          show findJob s.jobs id = some j from hj]
      rfl
    · refine ⟨j2, ?_, hs2⟩
      show findJob (setJob s.jobs id _) x = _
      rw [findJob_setJob_ne _ _ _ _ hfid he]
      exact hj2
  · intro x hx
    rcases hI.timerJob x hx with ⟨j2, hj2⟩
    by_cases he : id = x
    · subst he
      refine ⟨({ j with status := JStatus.completed, completedAt := some s.now } : MeetingJob), ?_⟩
      show findJob (setJob s.jobs id _) id = _
      rw [findJob_setJob_self _ _ _ hfid,
          show findJob s.jobs id = some j from hj]
      rfl
    · refine ⟨j2, ?_⟩
      show findJob (setJob s.jobs id _) x = _
      rw [findJob_setJob_ne _ _ _ _ hfid he]
      exact hj2
  · exact setJob_schedFuture hI hj hjs hfsched
  · exact setJob_fifo hI hj hjs hfid hfsched (by simp)

theorem applyLeave_inv {s : QState} {id : Nat} (hI : SysInv s)
    (hs : id ∈ s.activeSessions) : SysInv (applyLeave s id) := by
  have hact : id ∈ s.activeJobs := hI.occSub id (List.mem_append_left _ hs)
  obtain ⟨j, hj, hjs⟩ := hI.activeJob id hact
  have hrp : SysInv (releasePool s id) := releasePool_inv id hI
  have hns : id ∉ (releasePool s id).activeSessions := by
    show id ∉ s.activeSessions.erase id
    intro hmem
    have := (hI.occNodup.of_append_left.mem_erase_iff).mp hmem
    exact this.1 rfl
  have hna : id ∉ acquiringIds (releasePool s id) := by
    show id ∉ acquiringIds s
    exact List.disjoint_of_nodup_append hI.occNodup hs
  exact dispatchPass_inv (completeMark_inv hrp hj hjs hns hna)

theorem bindSession_inv {s : QState} {id : Nat} (hI : SysInv s)
    (h : stageOf s id = some DriverStage.acquiring) :
    SysInv (bindSession s id) := by
  have hidacq : id ∈ acquiringIds s := mem_acqIds_of_stage h
  have hdisj := List.disjoint_of_nodup_append hI.occNodup
  have hidns : id ∉ s.activeSessions := fun hm => hdisj hm hidacq
  have hocc' : occupancy (bindSession s id) =
      (id :: s.activeSessions) ++ (acquiringIds s).erase id := by
    unfold occupancy
    show insertKey s.activeSessions id ++
        acqIds (setStage s.drivers id DriverStage.joining) = _
    rw [insertKey_of_not_mem hidns,
        acqIds_setStage_erase (by simp) hI.driversNodup h]
    rfl
  have hperm : (occupancy s).Perm (occupancy (bindSession s id)) := by
    rw [hocc']
    have h1 : (acquiringIds s).Perm (id :: (acquiringIds s).erase id) :=
      List.perm_cons_erase hidacq
    have h2 : (s.activeSessions ++ acquiringIds s).Perm
        (s.activeSessions ++ (id :: (acquiringIds s).erase id)) :=
      List.Perm.append_left _ h1
    exact h2.trans List.perm_middle
  have hdrIds : driverIds (bindSession s id) = driverIds s := by
    unfold driverIds
    exact keyIds_setStage _ _ _
  refine ⟨hI.idLt, hI.idsSorted, hI.activeNodup, hI.activeLe, ?_, ?_, ?_,
    hI.timersNodup, hI.activeJob, ?_, hI.timerJob, ?_, hI.schedFuture,
    hI.fifo⟩
  · exact hperm.nodup_iff.mp hI.occNodup
  · intro x hx
    exact hI.occSub x (hperm.mem_iff.mpr hx)
  · rw [hdrIds]
    exact hI.driversNodup
  · intro x hx
    rw [hdrIds] at hx
    exact hI.driverJob x hx
  · intro pr hpr
    rcases mem_setStage hpr with h1 | ⟨_, h2⟩
    · exact hI.noCapNull pr h1
    · rw [h2]
      simp

theorem setStageState_inv {s : QState} {id : Nat} {st0 st : DriverStage}
    (hI : SysInv s) (h : stageOf s id = some st0)
    (h0 : st0 ≠ DriverStage.acquiring) (h1 : st ≠ DriverStage.acquiring)
    (h2 : st ≠ DriverStage.capacityNull) :
    SysInv (setStageState s id st) := by
  have hocc' : occupancy (setStageState s id st) = occupancy s := by
    unfold occupancy
    show s.activeSessions ++ acqIds (setStage s.drivers id st) = _
    rw [acqIds_setStage_of_stage_ne h h0 h1 hI.driversNodup]
    rfl
  have hdrIds : driverIds (setStageState s id st) = driverIds s := by
    unfold driverIds
    exact keyIds_setStage _ _ _
  refine ⟨hI.idLt, hI.idsSorted, hI.activeNodup, hI.activeLe, ?_, ?_, ?_,
    hI.timersNodup, hI.activeJob, ?_, hI.timerJob, ?_, hI.schedFuture,
    hI.fifo⟩
  · rw [hocc']
    exact hI.occNodup
  · intro x hx
    rw [hocc'] at hx
    exact hI.occSub x hx
  · rw [hdrIds]
    exact hI.driversNodup
  · intro x hx
    rw [hdrIds] at hx
    exact hI.driverJob x hx
  · intro pr hpr
    rcases mem_setStage hpr with hm | ⟨_, hm⟩
    · exact hI.noCapNull pr hm
    · rw [hm]
      exact h2

theorem applySaved_inv {s : QState} {id : Nat} (hI : SysInv s)
    (h : stageOf s id = some DriverStage.saving) :
    SysInv (applySaved s id) := by
  have hkey : id ∈ driverIds s := (mem_stageIn h).2
  obtain ⟨j, hj, hjs⟩ := hI.driverJob id hkey
  have hupd : SysInv (updateJobStatus s id JStatus.inMeeting) :=
    updateStatus_nonqueued_inv hI hj hjs (by simp)
  have hstage : stageOf (updateJobStatus s id JStatus.inMeeting) id =
      some DriverStage.saving := h
  unfold applySaved
  rw [hj]
  show SysInv (if j.startRecording = true then setStageState (updateJobStatus s id JStatus.inMeeting) id DriverStage.stabilizing else { updateJobStatus s id JStatus.inMeeting with drivers := removeDriver (updateJobStatus s id JStatus.inMeeting).drivers id })
  by_cases hrec : j.startRecording = true
  · rw [if_pos hrec]
    exact setStageState_inv hupd hstage (by simp) (by simp) (by simp)
  · rw [if_neg hrec]
    exact removeDriverState_inv id hupd

theorem fireTimer_inv {s : QState} (id : Nat) (hI : SysInv s) :
    SysInv (fireTimer s id) := by
  apply dispatchPass_inv
  refine ⟨hI.idLt, hI.idsSorted, hI.activeNodup, hI.activeLe, hI.occNodup,
    hI.occSub, hI.driversNodup, ?_, hI.activeJob, hI.driverJob, ?_,
    hI.noCapNull, hI.schedFuture, hI.fifo⟩
  · exact hI.timersNodup.erase id
  · intro x hx
    exact hI.timerJob x ((List.erase_sublist _ _).subset hx)

theorem clearAllTimers_inv {s : QState} (hI : SysInv s) :
    SysInv (clearAllTimers s) := by
  refine ⟨hI.idLt, hI.idsSorted, hI.activeNodup, hI.activeLe, hI.occNodup,
    hI.occSub, hI.driversNodup, List.nodup_nil, hI.activeJob, hI.driverJob,
    ?_, hI.noCapNull, hI.schedFuture, hI.fifo⟩
  intro x hx
  cases hx

theorem tick_inv {s : QState} (dt : Nat) (hI : SysInv s) :
    SysInv { s with now := s.now + dt } := by
  refine ⟨hI.idLt, hI.idsSorted, hI.activeNodup, hI.activeLe, hI.occNodup,
    hI.occSub, hI.driversNodup, hI.timersNodup, hI.activeJob, hI.driverJob,
    hI.timerJob, hI.noCapNull, ?_, hI.fifo⟩
  intro x hx t hts hlt
  have hlt' : s.now < t := by
    have : s.now + dt < t := hlt
    omega
  exact hI.schedFuture x hx t hts hlt'

theorem reinit_inv {s : QState} (hI : SysInv s) :
    SysInv { s with activeSessions := ([] : List Nat) } := by
  refine ⟨hI.idLt, hI.idsSorted, hI.activeNodup, hI.activeLe, ?_, ?_,
    hI.driversNodup, hI.timersNodup, hI.activeJob, hI.driverJob, hI.timerJob,
    hI.noCapNull, hI.schedFuture, hI.fifo⟩
  · show (([] : List Nat) ++ acquiringIds s).Nodup
    rw [List.nil_append]
    exact hI.occNodup.of_append_right
  · intro x hx
    rw [show occupancy { s with activeSessions := ([] : List Nat) } =
        acquiringIds s from rfl] at hx
    exact hI.occSub x (List.mem_append_right _ hx)

theorem initState_inv (maxConc : Nat) : SysInv (initState maxConc) := by
  refine ⟨?_, ?_, ?_, ?_, ?_, ?_, ?_, ?_, ?_, ?_, ?_, ?_, ?_, ?_⟩ <;>
    simp [initState, occupancy, acquiringIds, acqIds, driverIds, keyIds,
      getJob, findJob]

theorem appendJob_inv {s : QState} (hI : SysInv s) (url : String)
    (rec : Bool) (sched : Option Nat) :
    SysInv { s with jobs := s.jobs ++ [mkJob s url rec sched] } := by
  have hget : ∀ (id : Nat) (j : MeetingJob), getJob s id = some j →
      findJob (s.jobs ++ [mkJob s url rec sched]) id = some j := by
    intro id j h
    rw [findJob_append, show findJob s.jobs id = some j from h]
    rfl
  have hsplit : ∀ (id : Nat) (j : MeetingJob),
      findJob (s.jobs ++ [mkJob s url rec sched]) id = some j →
      findJob s.jobs id = some j ∨
        (j = mkJob s url rec sched ∧ id = s.jobs.length) := by
    intro id j h
    rw [findJob_append] at h
    cases hfs : findJob s.jobs id with
    | some jx =>
      rw [hfs] at h
      rw [show (some jx).or (findJob [mkJob s url rec sched] id) = some jx
        from rfl] at h
      left
      exact h
    | none =>
      rw [hfs] at h
      rw [Option.none_or] at h
      right
      obtain ⟨hm, hid⟩ := findJob_some h
      have hj : j = mkJob s url rec sched := by simpa using hm
      refine ⟨hj, ?_⟩
      rw [← hid, hj]
      rfl
  refine ⟨?_, ?_, hI.activeNodup, hI.activeLe, hI.occNodup, hI.occSub,
    hI.driversNodup, hI.timersNodup, ?_, ?_, ?_, hI.noCapNull, ?_, ?_⟩
  · intro x hx
    show x.id < (s.jobs ++ [mkJob s url rec sched]).length
    rw [List.length_append, List.length_singleton]
    rcases List.mem_append.mp hx with h1 | h1
    · have := hI.idLt x h1
      omega
    · have hx2 : x = mkJob s url rec sched := by simpa using h1
      rw [hx2]
      show s.jobs.length < s.jobs.length + 1
      omega
  · refine List.pairwise_append.mpr ⟨hI.idsSorted, List.pairwise_singleton _ _, ?_⟩
    intro a ha b hb
    have hb2 : b = mkJob s url rec sched := by simpa using hb
    rw [hb2]
    exact hI.idLt a ha
  · intro x hx
    rcases hI.activeJob x hx with ⟨j2, hj2, hs2⟩
    exact ⟨j2, hget x j2 hj2, hs2⟩
  · intro x hx
    rcases hI.driverJob x hx with ⟨j2, hj2, hs2⟩
    exact ⟨j2, hget x j2 hj2, hs2⟩
  · intro x hx
    rcases hI.timerJob x hx with ⟨j2, hj2⟩
    exact ⟨j2, hget x j2 hj2⟩
  · intro x hx t hts hlt
    rcases List.mem_append.mp hx with h1 | h1
    · exact hI.schedFuture x h1 t hts hlt
    · have hx2 : x = mkJob s url rec sched := by simpa using h1
      rw [hx2]
      rfl
  · intro id1 id2 j1 j2 h12 hg1 hg2 hn1 hn2 hq1
    rcases hsplit id2 j2 hg2 with h2 | ⟨hj2, hid2⟩
    · rcases hsplit id1 j1 hg1 with h1 | ⟨hj1, hid1⟩
      · exact hI.fifo id1 id2 j1 j2 h12 h1 h2 hn1 hn2 hq1
      · exfalso
        obtain ⟨hm2, hid2'⟩ := findJob_some h2
        have := hI.idLt j2 hm2
        omega
    · rw [hj2]
      rfl

theorem addJob_inv {s : QState} (hI : SysInv s) (url : String) (rec : Bool)
    (sched : Option Nat) : SysInv (addJob s url rec sched) :=
  dispatchPass_inv (appendJob_inv hI url rec sched)

/-! ### The reachability invariant -/

theorem qreach_inv {s : QState} (h : QReach s) : SysInv s := by
  induction h with
  | init maxConc => exact initState_inv maxConc
  | step hr hst ih =>
    cases hst with
    | submit url rec sched => exact addJob_inv ih url rec sched
    | finishAcquire id h => exact bindSession_inv ih h
    | acquireErr id err h => exact failDriver_inv ih h
    | capacityErr id h =>
      exfalso
      rcases mem_stageIn h with ⟨hm, _⟩
      exact ih.noCapNull _ hm rfl
    | joinOk id h =>
      exact setStageState_inv ih h (by simp) (by simp) (by simp)
    | joinErr id err h => exact failDriver_inv ih h
    | sessionSaved id h => exact applySaved_inv ih h
    | saveErr id err h => exact failDriver_inv ih h
    | recordingResult id ok h hs => exact applyRecordingResult_inv id ok ih
    | recordingCrash id h hs => exact failDriver_inv ih h
    | leave id hs => exact applyLeave_inv ih hs
    | timerFired id h => exact fireTimer_inv id ih
    | shutdownTimers => exact clearAllTimers_inv ih
    | tick dt => exact tick_inv dt ih
    | reinit => exact reinit_inv ih

/-! ### Further dispatch-loop corollaries used by the claims -/

theorem notActive_of_queued {s : QState} (hI : SysInv s) {id : Nat}
    {j : MeetingJob} (hj : getJob s id = some j)
    (hq : j.status = JStatus.queued) : id ∉ s.activeJobs := by
  intro hmem
  rcases hI.activeJob id hmem with ⟨j2, hj2, hj2s⟩
  rw [hj] at hj2
  obtain rfl : j = j2 := by injection hj2
  exact hj2s hq

theorem dispatchLoop_at_capacity {L : List Nat} {s : QState}
    (h : s.maxConcurrent ≤ s.activeJobs.length) : dispatchLoop s L = s := by
  cases L with
  | nil => rfl
  | cons a l =>
    rw [dispatchLoop, if_pos h]

theorem dispatchLoop_noskip (L : List Nat) (s : QState) (h : LoopOk s L) :
    ∀ id1 id2 j1 j2, id1 < id2 → id1 ∈ L → id2 ∈ L →
      getJob (dispatchLoop s L) id1 = some j1 →
      j1.status = JStatus.queued →
      getJob (dispatchLoop s L) id2 = some j2 →
      j2.status = JStatus.queued := by
  induction L generalizing s with
  | nil =>
    intro id1 id2 j1 j2 _ h1
    cases h1
  | cons id0 rest ih =>
    intro id1 id2 j1 j2 h12 hm1 hm2 hg1 hq1 hg2
    by_cases hcap : s.maxConcurrent ≤ s.activeJobs.length
    · rw [dispatchLoop, if_pos hcap] at hg1 hg2
      obtain ⟨j2', hj2', hr2⟩ := h.mem id2 hm2
      rw [hj2'] at hg2
      obtain rfl : j2' = j2 := by injection hg2
      exact jobReady_status hr2
    · rw [dispatchLoop, if_neg hcap] at hg1 hg2
      have htail := loopOk_tail h hcap
      rcases List.mem_cons.mp hm1 with rfl | hm1'
      · exfalso
        have hid0nr : id1 ∉ rest := fun hm =>
          absurd ((List.pairwise_cons.mp h.sorted).1 id1 hm) (lt_irrefl id1)
        rw [getJob_dispatchLoop_not_mem rest _ id1 hid0nr,
            getJob_dispatchOne_self] at hg1
        obtain ⟨j0, hj0, hr0⟩ := h.mem id1 (List.mem_cons_self _ _)
        rw [hj0] at hg1
        injection hg1 with hinj
        rw [← hinj] at hq1
        simp at hq1
      · have hm2' : id2 ∈ rest := by
          rcases List.mem_cons.mp hm2 with rfl | hx
          · exfalso
            have := (List.pairwise_cons.mp h.sorted).1 id1 hm1'
            omega
          · exact hx
        exact ih (dispatchOne s id0) htail id1 id2 j1 j2 h12 hm1' hm2' hg1
          hq1 hg2

theorem dispatchLoop_full (L : List Nat) (s : QState) (h : LoopOk s L)
    (hcap : s.activeJobs.length + L.length ≤ s.maxConcurrent) :
    ∀ id ∈ L, ∃ j, getJob s id = some j ∧
      getJob (dispatchLoop s L) id =
        some { j with status := JStatus.processing,
                      startedAt := some s.now } := by
  induction L generalizing s with
  | nil =>
    intro id h1
    cases h1
  | cons id0 rest ih =>
    have hcap' : ¬s.maxConcurrent ≤ s.activeJobs.length := by
      simp only [List.length_cons] at hcap
      omega
    intro id hm
    rw [dispatchLoop, if_neg hcap']
    rcases List.mem_cons.mp hm with rfl | hm'
    · obtain ⟨j, hj, hr⟩ := h.mem id (List.mem_cons_self _ _)
      refine ⟨j, hj, ?_⟩
      have hidnr : id ∉ rest := fun hx =>
        absurd ((List.pairwise_cons.mp h.sorted).1 id hx) (lt_irrefl id)
      rw [getJob_dispatchLoop_not_mem rest _ id hidnr,
          getJob_dispatchOne_self, hj]
      rfl
    · obtain ⟨j0, hj0, hr0⟩ := h.mem id0 (List.mem_cons_self _ _)
      have hid0na : id0 ∉ s.activeJobs :=
        notActive_of_queued h.inv hj0 (jobReady_status hr0)
      have hlen : (dispatchOne s id0).activeJobs.length =
          s.activeJobs.length + 1 := by
        show (insertKey s.activeJobs id0).length = _
        rw [insertKey_of_not_mem hid0na]
        rfl
      have hcap2 : (dispatchOne s id0).activeJobs.length + rest.length ≤
          (dispatchOne s id0).maxConcurrent := by
        rw [hlen]
        show _ ≤ s.maxConcurrent
        simp only [List.length_cons] at hcap
        omega
      obtain ⟨j', hj', hloop⟩ :=
        ih (dispatchOne s id0) (loopOk_tail h hcap') hcap2 id hm'
      have hne : id0 ≠ id := by
        intro hh
        subst hh
        exact absurd ((List.pairwise_cons.mp h.sorted).1 id0 hm')
          (lt_irrefl id0)
      rw [getJob_dispatchOne_ne s hne] at hj'
      exact ⟨j', hj', hloop⟩

theorem dispatchPass_frame (s : QState) :
    (dispatchPass s).activeSessions = s.activeSessions ∧
    (dispatchPass s).now = s.now ∧
    (dispatchPass s).maxConcurrent = s.maxConcurrent ∧
    (dispatchPass s).recFlags = s.recFlags ∧
    (dispatchPass s).hasProcessor = s.hasProcessor := by
  unfold dispatchPass
  by_cases hp : s.hasProcessor = true
  · rw [if_pos hp]
    have h := dispatchLoop_frame (readyIds s) s
    exact ⟨h.1, h.2.1, h.2.2.1, h.2.2.2.2.1, h.2.2.2.2.2⟩
  · rw [if_neg hp]
    exact ⟨rfl, rfl, rfl, rfl, rfl⟩

theorem getJob_dispatchPass_not_ready {s : QState} {id : Nat}
    (h : id ∉ readyIds s) : getJob (dispatchPass s) id = getJob s id := by
  unfold dispatchPass
  by_cases hp : s.hasProcessor = true
  · rw [if_pos hp]
    show getJob (dispatchLoop s (readyIds s)) id = _
    exact getJob_dispatchLoop_not_mem _ _ _ h
  · rw [if_neg hp]

theorem not_ready_of_not_queued {s : QState} (hI : SysInv s) {id : Nat}
    {j : MeetingJob} (hj : getJob s id = some j)
    (hq : j.status ≠ JStatus.queued) : id ∉ readyIds s := by
  intro hm
  unfold readyIds at hm
  rcases List.mem_map.mp hm with ⟨j', hj', hjid⟩
  have hready := List.of_mem_filter hj'
  have hmem := List.mem_of_mem_filter hj'
  have hje : j' = j := getJob_unique hI hj hmem hjid
  rw [hje] at hready
  exact hq (jobReady_status hready)

theorem futurePending_sched {s : QState} {x : Nat} (hx : x ∈ futurePending s) :
    ∃ j ∈ s.jobs, j.id = x ∧ ∃ t, j.scheduledTime = some t ∧ s.now < t := by
  unfold futurePending at hx
  rcases List.mem_map.mp hx with ⟨j, hj, hjx⟩
  have hcond := List.of_mem_filter hj
  rw [Bool.and_eq_true, Bool.and_eq_true] at hcond
  have hmid := hcond.1.2
  refine ⟨j, List.mem_of_mem_filter hj, hjx, ?_⟩
  cases hsched : j.scheduledTime with
  | none =>
    rw [hsched] at hmid
    cases hmid
  | some t =>
    rw [hsched] at hmid
    exact ⟨t, rfl, by simpa using hmid⟩

theorem dispatchPass_timers_mem {s : QState} {x : Nat}
    (hx : x ∈ (dispatchPass s).timers) :
    x ∈ s.timers ∨ x ∈ futurePending (dispatchLoop s (readyIds s)) := by
  unfold dispatchPass at hx
  by_cases hp : s.hasProcessor = true
  · rw [if_pos hp] at hx
    have hti : (scheduleUpcoming (dispatchLoop s (readyIds s))).timers =
        (dispatchLoop s (readyIds s)).timers ++
          futurePending (dispatchLoop s (readyIds s)) := rfl
    rw [hti, (dispatchLoop_frame _ _).2.2.2.1] at hx
    exact List.mem_append.mp hx
  · rw [if_neg hp] at hx
    exact Or.inl hx

theorem dispatchPass_active_mem {s : QState} {x : Nat}
    (hx : x ∈ (dispatchPass s).activeJobs) :
    x ∈ s.activeJobs ∨ x ∈ readyIds s := by
  unfold dispatchPass at hx
  by_cases hp : s.hasProcessor = true
  · rw [if_pos hp] at hx
    exact dispatchLoop_active_mem _ _ hx
  · rw [if_neg hp] at hx
    exact Or.inl hx

theorem dispatchPass_getJob_full {s : QState} (hI : SysInv s)
    (hp : s.hasProcessor = true)
    (hcap : s.activeJobs.length + (readyIds s).length ≤ s.maxConcurrent)
    {id : Nat} (hm : id ∈ readyIds s) :
    ∃ j, getJob s id = some j ∧
      getJob (dispatchPass s) id =
        some { j with status := JStatus.processing,
                      startedAt := some s.now } := by
  unfold dispatchPass
  rw [if_pos hp]
  obtain ⟨j, hj, hl⟩ :=
    dispatchLoop_full _ _ (loopOk_readyIds hI) hcap id hm
  exact ⟨j, hj, hl⟩

theorem readyIds_snoc (s : QState) (url : String) (rec : Bool) :
    readyIds { s with jobs := s.jobs ++ [mkJob s url rec none] } =
      readyIds s ++ [newJobId s] := by
  show ((s.jobs ++ [mkJob s url rec none]).filter
      (fun j => jobReady s.now j)).map MeetingJob.id = _
  rw [List.filter_append, List.map_append]
  congr 1

theorem getJob_append_new {s : QState} (hI : SysInv s) (url : String)
    (rec : Bool) (sched : Option Nat) :
    getJob { s with jobs := s.jobs ++ [mkJob s url rec sched] } (newJobId s) =
      some (mkJob s url rec sched) := by
  show findJob (s.jobs ++ [mkJob s url rec sched]) s.jobs.length = _
  rw [findJob_append]
  rw [show findJob s.jobs s.jobs.length = none from ?_]
  · rw [Option.none_or]
    show List.find? _ [_] = _
    rw [List.find?_cons_of_pos _ (by simp [mkJob, newJobId])]
  · rw [findJob, List.find?_eq_none]
    intro x hx
    have := hI.idLt x hx
    simp only [beq_iff_eq]
    omega

/-! ### The pool models in isolation -/

theorem greach_inv {p : PoolSt} (h : GReach p) : GPoolInv p := by
  induction h with
  | start maxConc =>
    refine ⟨List.nodup_nil, ?_, ?_⟩
    · intro x hx
      cases hx
    · simp
  | @step p1 p2 hr hst ih =>
    cases hst with
    | check id h1 h2 hcap =>
      refine ⟨List.nodup_cons.mpr ⟨h2, ih.pendingNodup⟩, ?_, ?_⟩
      · intro x hx
        rcases List.mem_cons.mp hx with rfl | hx'
        · exact h1
        · exact ih.disj x hx'
      · show _ + (_ : List Nat).length ≤ _
        simp only [List.length_cons]
        omega
    | bind id h =>
      have hns : id ∉ p1.activeSessions := ih.disj id h
      have hlen : 1 ≤ p1.pending.length := by
        cases hp : p1.pending with
        | nil =>
          rw [hp] at h
          cases h
        | cons a l => simp [hp]
      refine ⟨ih.pendingNodup.erase id, ?_, ?_⟩
      · intro x hx
        have hx' := (ih.pendingNodup.mem_erase_iff).mp hx
        rw [insertKey_of_not_mem hns]
        intro hmem
        rcases List.mem_cons.mp hmem with rfl | hmem'
        · exact hx'.1 rfl
        · exact ih.disj x hx'.2 hmem'
      · show (insertKey p1.activeSessions id).length +
          (p1.pending.erase id).length ≤ p1.maxConcurrent
        rw [insertKey_of_not_mem hns, List.length_cons,
            List.length_erase_of_mem h]
        have := ih.occLe
        omega
    | release id =>
      refine ⟨ih.pendingNodup, ?_, ?_⟩
      · intro x hx
        intro hmem
        exact ih.disj x hx ((List.erase_sublist _ _).subset hmem)
      · have h1 := (List.erase_sublist id p1.activeSessions).length_le
        have := ih.occLe
        show (p1.activeSessions.erase id).length + p1.pending.length ≤
          p1.maxConcurrent
        omega

/-! ### The claims -/

/-- Claim C1: for every sequence of job submissions and completions (and
driver failures), the number of concurrently active jobs/sessions — the size
of the queue's `activeJobs` map and of the pool's `activeSessions` map —
never exceeds `config.maxConcurrentSessions` at any observable instant,
including while several acquisitions are in flight. -/
theorem claim1_capacity_invariant {s : QState} (h : QReach s) :
    s.activeJobs.length ≤ s.maxConcurrent ∧
    s.activeSessions.length ≤ s.maxConcurrent := by
  have hI := qreach_inv h
  refine ⟨hI.activeLe, ?_⟩
  have hsub : ∀ x ∈ s.activeSessions, x ∈ s.activeJobs := fun x hx =>
    hI.occSub x (List.mem_append_left _ hx)
  have hnd : s.activeSessions.Nodup := hI.occNodup.of_append_left
  exact le_trans (nodup_length_le_of_sub hnd hsub) hI.activeLe

/-- Claim C1 witness: a reachable state with two in-flight acquisitions
(two jobs submitted to a pool of limit 2, both drivers suspended inside
session creation) satisfies the capacity bound. -/
theorem claim1_witness :
    (addJob (addJob (initState 2) "m1" true none) "m2" true none).activeJobs.length ≤
      (addJob (addJob (initState 2) "m1" true none) "m2" true none).maxConcurrent ∧
    (addJob (addJob (initState 2) "m1" true none) "m2" true none).activeSessions.length ≤
      (addJob (addJob (initState 2) "m1" true none) "m2" true none).maxConcurrent := by
  have hr : QReach (addJob (addJob (initState 2) "m1" true none) "m2" true none) :=
    QReach.step (QReach.step (QReach.init 2)
      (QStep.submit _ "m1" true none)) (QStep.submit _ "m2" true none)
  exact claim1_capacity_invariant hr

/-- Claim C2: in every dispatch pass, ready jobs are considered strictly in
submission order and the scan stops at the first capacity-blocked job rather
than skipping ahead (second conjunct); consequently, among jobs submitted
without a `scheduledTime`, an earlier-submitted job always reaches
`processing` before a later-submitted one: in every reachable state, if the
earlier job is still `queued` then so is the later one (first conjunct). -/
theorem claim2_fifo {s : QState} (h : QReach s) :
    (∀ id1 id2 j1 j2, id1 < id2 → getJob s id1 = some j1 →
      getJob s id2 = some j2 → j1.scheduledTime = none →
      j2.scheduledTime = none → j1.status = JStatus.queued →
      j2.status = JStatus.queued) ∧
    (∀ id1 id2 j1 j2 j1', id1 < id2 → getJob s id1 = some j1 →
      getJob s id2 = some j2 → jobReady s.now j1 = true →
      jobReady s.now j2 = true →
      getJob (dispatchPass s) id1 = some j1' →
      j1'.status = JStatus.queued →
      ∃ j2', getJob (dispatchPass s) id2 = some j2' ∧
        j2'.status = JStatus.queued) := by
  have hI := qreach_inv h
  refine ⟨hI.fifo, ?_⟩
  intro id1 id2 j1 j2 j1' h12 hg1 hg2 hr1 hr2 hp1 hq1
  have hok := loopOk_readyIds hI
  have hm1 : id1 ∈ readyIds s := hok.all id1 j1 hg1 hr1
  have hm2 : id2 ∈ readyIds s := hok.all id2 j2 hg2 hr2
  unfold dispatchPass at hp1 ⊢
  by_cases hproc : s.hasProcessor = true
  · rw [if_pos hproc] at hp1 ⊢
    have hp1' : getJob (dispatchLoop s (readyIds s)) id1 = some j1' := hp1
    rcases dispatchLoop_getJob_some (readyIds s) s id2 hg2 with h2 | h2
    · exact ⟨j2, h2, dispatchLoop_noskip _ _ hok id1 id2 j1' j2 h12 hm1 hm2
        hp1' hq1 h2⟩
    · exfalso
      have := dispatchLoop_noskip _ _ hok id1 id2 j1' _ h12 hm1 hm2 hp1'
        hq1 h2
      simp at this
  · rw [if_neg hproc] at hp1 ⊢
    exact ⟨j2, hg2, jobReady_status hr2⟩

/-- Claim C2 witness: with limit 1, submitting two unscheduled jobs leaves
the first `processing` and the second `queued`; the FIFO invariant applies to
the reachable two-job state. -/
theorem claim2_witness :
    getJobStatus (addJob (addJob (initState 1) "m1" true none) "m2" true none) 0 =
      some JStatus.processing ∧
    getJobStatus (addJob (addJob (initState 1) "m1" true none) "m2" true none) 1 =
      some JStatus.queued ∧
    (∀ j1 j2, getJob (addJob (addJob (initState 1) "m1" true none) "m2" true none) 0 = some j1 →
      getJob (addJob (addJob (initState 1) "m1" true none) "m2" true none) 1 = some j2 →
      j1.scheduledTime = none → j2.scheduledTime = none →
      j1.status = JStatus.queued → j2.status = JStatus.queued) := by
  have hr : QReach (addJob (addJob (initState 1) "m1" true none) "m2" true none) :=
    QReach.step (QReach.step (QReach.init 1)
      (QStep.submit _ "m1" true none)) (QStep.submit _ "m2" true none)
  refine ⟨by decide, by decide, ?_⟩
  intro j1 j2 h1 h2 hn1 hn2 hq1
  exact (claim2_fifo hr).1 0 1 j1 j2 (by omega) h1 h2 hn1 hn2 hq1

/-- Claim C5: unavailable capacity is never an error for a job.  First
conjunct: a dispatch pass that finds the queue at capacity changes no job
record, no `activeJobs` entry and no session (the blocked job silently stays
`queued`).  Second conjunct: in every reachable state no driver is parked on
the `acquireSession`-returned-`null` path, so no job is ever failed with the
capacity error.  Third conjunct: completing a job triggers a fresh dispatch
pass by definition, which is how a blocked job is retried. -/
theorem claim5_capacity_not_error {s : QState} (h : QReach s) :
    (s.maxConcurrent ≤ s.activeJobs.length →
      (dispatchPass s).jobs = s.jobs ∧
      (dispatchPass s).activeJobs = s.activeJobs ∧
      (dispatchPass s).activeSessions = s.activeSessions) ∧
    (∀ id, stageOf s id ≠ some DriverStage.capacityNull) ∧
    (∀ id, applyLeave s id =
      dispatchPass (completeBookkeeping (releasePool s id) id)) := by
  have hI := qreach_inv h
  refine ⟨?_, ?_, fun id => rfl⟩
  · intro hcap
    unfold dispatchPass
    by_cases hp : s.hasProcessor = true
    · rw [if_pos hp, dispatchLoop_at_capacity hcap]
      exact ⟨rfl, rfl, rfl⟩
    · rw [if_neg hp]
      exact ⟨rfl, rfl, rfl⟩
  · intro id hstage
    rcases mem_stageIn hstage with ⟨hm, _⟩
    exact hI.noCapNull _ hm rfl

/-- Claim C5 witness: in the reachable one-slot state with one job being
processed and a second submitted, the pass at capacity leaves the queue
untouched and no driver is on the capacity-error path. -/
theorem claim5_witness :
    (dispatchPass (addJob (addJob (initState 1) "m1" true none) "m2" true none)).jobs =
      (addJob (addJob (initState 1) "m1" true none) "m2" true none).jobs ∧
    stageOf (addJob (addJob (initState 1) "m1" true none) "m2" true none) 1 ≠
      some DriverStage.capacityNull := by
  have hr : QReach (addJob (addJob (initState 1) "m1" true none) "m2" true none) :=
    QReach.step (QReach.step (QReach.init 1)
      (QStep.submit _ "m1" true none)) (QStep.submit _ "m2" true none)
  exact ⟨((claim5_capacity_not_error hr).1 (by decide)).1,
    (claim5_capacity_not_error hr).2.1 1⟩

/-- Claim C6: a job submitted with a strictly future `scheduledTime` never
leaves `queued` before that time (first conjunct: in every reachable state
whose clock is still before the scheduled time the job is `queued`), and the
dispatch readiness test only admits a scheduled job once `scheduledTime ≤
now` (second conjunct). -/
theorem claim6_scheduled_not_early {s : QState} (h : QReach s) :
    (∀ j ∈ s.jobs, ∀ t, j.scheduledTime = some t → s.now < t →
      j.status = JStatus.queued) ∧
    (∀ (now : Nat) (j : MeetingJob) (t : Nat), j.scheduledTime = some t →
      jobReady now j = true → t ≤ now) :=
  ⟨(qreach_inv h).schedFuture, fun _ _ _ ht hr => jobReady_sched hr ht⟩

/-- Claim C6 witness: a job scheduled for time 10 submitted at time 0 into an
empty pool is still `queued` (the dispatch pass run by `addJob` did not start
it despite free capacity). -/
theorem claim6_witness :
    ({ id := 0, meetingUrl := "m", startRecording := true,
       scheduledTime := some 10, status := JStatus.queued, error := none,
       createdAt := 0, startedAt := none,
       completedAt := none } : MeetingJob).status = JStatus.queued ∧
    getJobStatus (addJob (initState 1) "m" true (some 10)) 0 =
      some JStatus.queued := by
  have hr : QReach (addJob (initState 1) "m" true (some 10)) :=
    QReach.step (QReach.init 1) (QStep.submit _ "m" true (some 10))
  refine ⟨?_, by decide⟩
  exact (claim6_scheduled_not_early hr).1
    { id := 0, meetingUrl := "m", startRecording := true,
      scheduledTime := some 10, status := JStatus.queued, error := none,
      createdAt := 0, startedAt := none, completedAt := none }
    (by decide) 10 rfl (by decide)

/-- Claim C4: for every job whose driver throws (at any of its suspension
stages, all of which precede or follow the same failure path), the failure
path marks the job `failed` with its `error` field set and `completedAt`
stamped, removes it from `activeJobs`, releases its pool session, and runs a
fresh dispatch pass (the last conjunct records that `failDriver` is by
definition a dispatch pass over the bookkeeping state), so capacity is never
permanently reduced by a failed driver. -/
theorem claim4_driver_failure {s : QState} (h : QReach s) {id : Nat}
    {st : DriverStage} (hst : stageOf s id = some st) (err : String) :
    ∃ j', getJob (failDriver s id err) id = some j' ∧
      j'.status = JStatus.failed ∧ j'.error = some err ∧
      j'.completedAt = some s.now ∧
      id ∉ (failDriver s id err).activeJobs ∧
      id ∉ (failDriver s id err).activeSessions ∧
      failDriver s id err =
        dispatchPass (failBookkeeping (releasePool s id) id err) := by
  have hI := qreach_inv h
  have hkey : id ∈ driverIds s := (mem_stageIn hst).2
  obtain ⟨j, hj, hjs⟩ := hI.driverJob id hkey
  have hrp : SysInv (releasePool s id) := releasePool_inv id hI
  have hsessNodup : s.activeSessions.Nodup := hI.occNodup.of_append_left
  have hns : id ∉ (releasePool s id).activeSessions := by
    show id ∉ s.activeSessions.erase id
    intro hmem
    exact ((hsessNodup.mem_erase_iff).mp hmem).1 rfl
  have hIb : SysInv (failBookkeeping (releasePool s id) id err) :=
    failMark_inv hrp hj hjs hns
  have hfid : ∀ y : MeetingJob, ({ y with status := JStatus.failed, error := some err, completedAt := some (releasePool s id).now } : MeetingJob).id = y.id := fun y => rfl
  have hgb : getJob (failBookkeeping (releasePool s id) id err) id = some ({ j with status := JStatus.failed, error := some err, completedAt := some (releasePool s id).now } : MeetingJob) := by
    show findJob (setJob s.jobs id _) id = _
    rw [findJob_setJob_self _ _ _ hfid,
        show findJob s.jobs id = some j from hj]
    rfl
  have hnr : id ∉ readyIds (failBookkeeping (releasePool s id) id err) :=
    not_ready_of_not_queued hIb hgb (by simp)
  refine ⟨({ j with status := JStatus.failed, error := some err, completedAt := some s.now } : MeetingJob), ?_, rfl, rfl, rfl, ?_, ?_, rfl⟩
  · show getJob (dispatchPass (failBookkeeping (releasePool s id) id err))
      id = _
    rw [getJob_dispatchPass_not_ready hnr]
    exact hgb
  · intro hmem
    have hmem' : id ∈ (dispatchPass
        (failBookkeeping (releasePool s id) id err)).activeJobs := hmem
    rcases dispatchPass_active_mem hmem' with h1 | h1
    · have h2 : id ∈ s.activeJobs.erase id := h1
      exact ((hI.activeNodup.mem_erase_iff).mp h2).1 rfl
    · exact hnr h1
  · intro hmem
    have hmem' : id ∈ (dispatchPass
        (failBookkeeping (releasePool s id) id err)).activeSessions := hmem
    rw [(dispatchPass_frame _).1] at hmem'
    exact hns hmem'

/-- Claim C4 witness: failing the in-flight driver of the single submitted
job marks it `failed` with the error recorded and frees both maps. -/
theorem claim4_witness :
    getJobStatus (failDriver (addJob (initState 1) "x" true none) 0 "boom") 0 =
      some JStatus.failed ∧
    0 ∉ (failDriver (addJob (initState 1) "x" true none) 0 "boom").activeJobs ∧
    0 ∉ (failDriver (addJob (initState 1) "x" true none) 0 "boom").activeSessions := by
  have hr : QReach (addJob (initState 1) "x" true none) :=
    QReach.step (QReach.init 1) (QStep.submit _ "x" true none)
  obtain ⟨j', hg, hstat, herr, hcomp, hna, hns, hdef⟩ :=
    claim4_driver_failure hr
      (show stageOf (addJob (initState 1) "x" true none) 0 =
        some DriverStage.acquiring by decide) "boom"
  refine ⟨?_, hna, hns⟩
  rw [getJobStatus, hg]
  show some j'.status = some JStatus.failed
  rw [hstat]

/-- Claim C10: `addJob` runs a dispatch pass synchronously before returning,
so when a processor is set, there is capacity for the new job after the
earlier ready jobs, and the job has no future scheduled time, the returned
job object is already `processing` with `startedAt` stamped — callers cannot
rely on observing the `queued` state of an immediately-dispatched job. -/
theorem claim10_addJob_dispatches {s : QState} (h : QReach s)
    (hp : s.hasProcessor = true) (url : String) (rec : Bool)
    (hcap : s.activeJobs.length + (readyIds s).length < s.maxConcurrent) :
    ∃ j, getJob (addJob s url rec none) (newJobId s) = some j ∧
      j.status = JStatus.processing ∧ j.startedAt = some s.now := by
  have hI := qreach_inv h
  have hI2 := appendJob_inv hI url rec none
  have hr2 : readyIds { s with jobs := s.jobs ++ [mkJob s url rec none] } =
      readyIds s ++ [newJobId s] := readyIds_snoc s url rec
  have hm : newJobId s ∈
      readyIds { s with jobs := s.jobs ++ [mkJob s url rec none] } := by
    rw [hr2]
    exact List.mem_append_right _ (List.mem_singleton.mpr rfl)
  have hcap2 : ({ s with jobs := s.jobs ++ [mkJob s url rec none] } :
      QState).activeJobs.length +
      (readyIds { s with jobs := s.jobs ++ [mkJob s url rec none] }).length ≤
      ({ s with jobs := s.jobs ++ [mkJob s url rec none] } :
        QState).maxConcurrent := by
    rw [hr2]
    show s.activeJobs.length + (readyIds s ++ [newJobId s]).length ≤
      s.maxConcurrent
    rw [List.length_append, List.length_singleton]
    omega
  obtain ⟨j0, hj0, hres⟩ := dispatchPass_getJob_full hI2 hp hcap2 hm
  rw [getJob_append_new hI url rec none] at hj0
  obtain rfl : mkJob s url rec none = j0 := by injection hj0
  exact ⟨_, hres, rfl, rfl⟩

/-- Claim C10 witness: on an idle two-slot server, `addJob` returns a job
that is already `processing`, not `queued`. -/
theorem claim10_witness :
    getJobStatus (addJob (initState 2) "u" true none) 0 =
      some JStatus.processing := by
  obtain ⟨j, hg, hstat, hstart⟩ :=
    claim10_addJob_dispatches (QReach.init 2) (by decide) "u" true (by decide)
  rw [getJobStatus]
  rw [show getJob (addJob (initState 2) "u" true none) 0 = some j from hg]
  show some j.status = some JStatus.processing
  rw [hstat]

/-- Claim C9: at every instant each job id has at most one live timer in the
`scheduledTimers` registry (the registry key list is duplicate-free in every
reachable state, and stays so across any dispatch pass, so a scheduling pass
never creates a second timer for a job that already has one); a timer that
fires is removed from the registry immediately and is not re-created by the
pass it triggers, and `clearTimers` empties the registry. -/
theorem claim9_timers {s : QState} (h : QReach s) :
    s.timers.Nodup ∧
    (dispatchPass s).timers.Nodup ∧
    (∀ id, timerDue s id → id ∉ (fireTimer s id).timers) ∧
    (clearAllTimers s).timers = [] := by
  have hI := qreach_inv h
  refine ⟨hI.timersNodup, (dispatchPass_inv hI).timersNodup, ?_, rfl⟩
  intro id hdue hmem
  have hmem' : id ∈ (dispatchPass
      { s with timers := s.timers.erase id }).timers := hmem
  rcases dispatchPass_timers_mem hmem' with h1 | h1
  · exact absurd rfl ((hI.timersNodup.mem_erase_iff).mp h1).1
  · obtain ⟨j', hj'm, hj'id, t, hts, hlt⟩ := futurePending_sched h1
    rcases dispatchLoop_jobs_mem _ _ hj'm with ⟨y, hy, hxy⟩
    have hysched : y.scheduledTime = some t := by
      rcases hxy with rfl | rfl
      · exact hts
      · exact hts
    have hyid : y.id = id := by
      rcases hxy with rfl | rfl
      · exact hj'id
      · exact hj'id
    have hgy : getJob s id = some y := by
      rw [← hyid]
      exact findJob_of_mem hI.idsSorted hy
    have hle : t ≤ s.now := hdue.2 y hgy t hysched
    have hnow : (dispatchLoop { s with timers := s.timers.erase id }
        (readyIds { s with timers := s.timers.erase id })).now = s.now :=
      (dispatchLoop_frame _ _).2.1
    rw [hnow] at hlt
    omega

/-- Claim C9 witness: the timer of a job scheduled for time 10 is present
after submission, and once due (clock advanced to 10) firing it removes it
from the registry. -/
theorem claim9_witness :
    ({ addJob (initState 1) "m" true (some 10) with
        now := (addJob (initState 1) "m" true (some 10)).now + 10 } :
      QState).timers = [0] ∧
    0 ∉ (fireTimer { addJob (initState 1) "m" true (some 10) with
        now := (addJob (initState 1) "m" true (some 10)).now + 10 } 0).timers := by
  have hr1 : QReach (addJob (initState 1) "m" true (some 10)) :=
    QReach.step (QReach.init 1) (QStep.submit _ "m" true (some 10))
  have hr2 : QReach ({ addJob (initState 1) "m" true (some 10) with
      now := (addJob (initState 1) "m" true (some 10)).now + 10 } : QState) :=
    QReach.step hr1 (QStep.tick _ 10)
  refine ⟨by decide, ?_⟩
  refine (claim9_timers hr2).2.2.1 0 ⟨by decide, ?_⟩
  intro j hj t ht
  rw [show getJob ({ addJob (initState 1) "m" true (some 10) with
               now := (addJob (initState 1) "m" true (some 10)).now + 10 } : QState) 0 =
      some ({ id := 0, meetingUrl := "m", startRecording := true,
                scheduledTime := some 10, status := JStatus.queued, error := none,
                createdAt := 0, startedAt := none, completedAt := none } : MeetingJob)
    from by decide] at hj
  injection hj with h1
  rw [← h1] at ht
  rw [show ({ id := 0, meetingUrl := "m", startRecording := true,
              scheduledTime := some 10, status := JStatus.queued, error := none,
              createdAt := 0, startedAt := none,
              completedAt := none } : MeetingJob).scheduledTime = some 10 from rfl]
    at ht
  injection ht with h2
  rw [← h2]
  decide

/-- Claim C3 counterexample: a reachable trace in which a terminal status is
overwritten.  A job is submitted, its session binds, the join is in progress
(saving stage) when the `leave-meeting` route completes the job
(`completed`, a terminal state); the driver then resumes and its mark-active
call (`updateJobStatus` to `in-meeting`, performed by `applySaved`, a real
`QStep` from the completed state) moves the job from `completed` back to
`in-meeting` — `updateJobStatus` has no guard, so the claim as stated is
false on the code. -/
theorem claim3_counterexample :
    getJobStatus (applyLeave (setStageState (bindSession (addJob (initState 1) "m" false none) 0) 0 DriverStage.saving) 0) 0 = some JStatus.completed ∧
    QStep (applyLeave (setStageState (bindSession (addJob (initState 1) "m" false none) 0) 0 DriverStage.saving) 0)
      (applySaved (applyLeave (setStageState (bindSession (addJob (initState 1) "m" false none) 0) 0 DriverStage.saving) 0) 0) ∧
    getJobStatus (applySaved (applyLeave (setStageState (bindSession (addJob (initState 1) "m" false none) 0) 0 DriverStage.saving) 0) 0) 0 = some JStatus.inMeeting ∧
    QReach (applySaved (applyLeave (setStageState (bindSession (addJob (initState 1) "m" false none) 0) 0 DriverStage.saving) 0) 0) := by
  have h1 : QReach (addJob (initState 1) "m" false none) :=
    QReach.step (QReach.init 1) (QStep.submit _ "m" false none)
  have h2 : QReach (bindSession (addJob (initState 1) "m" false none) 0) :=
    QReach.step h1 (QStep.finishAcquire _ 0 (by decide))
  have h3 : QReach (setStageState (bindSession (addJob (initState 1) "m" false none) 0) 0 DriverStage.saving) :=
    QReach.step h2 (QStep.joinOk _ 0 (by decide))
  have h4 : QReach (applyLeave (setStageState (bindSession (addJob (initState 1) "m" false none) 0) 0 DriverStage.saving) 0) :=
    QReach.step h3 (QStep.leave _ 0 (by decide))
  have hstep : QStep (applyLeave (setStageState (bindSession (addJob (initState 1) "m" false none) 0) 0 DriverStage.saving) 0)
      (applySaved (applyLeave (setStageState (bindSession (addJob (initState 1) "m" false none) 0) 0 DriverStage.saving) 0) 0) :=
    QStep.sessionSaved _ 0 (by decide)
  exact ⟨by decide, hstep, by decide, QReach.step h4 hstep⟩

/-- Claim C3 (amended): a dispatch pass never changes the record of a job
that is not `queued` (in particular a `completed`/`failed` job is never
touched by dispatch), but `updateJobStatus` is unconditional: it sets the
status of any existing job to the given value, so terminal statuses can be
overwritten by the driver's mark-active call or by `completeJob`. -/
theorem claim3_amended {s : QState} (h : QReach s) :
    (∀ id j, getJob s id = some j → j.status ≠ JStatus.queued →
      getJob (dispatchPass s) id = some j) ∧
    (∀ id j st, getJob s id = some j →
      getJob (updateJobStatus s id st) id = some { j with status := st }) := by
  have hI := qreach_inv h
  constructor
  · intro id j hj hnq
    rw [getJob_dispatchPass_not_ready (not_ready_of_not_queued hI hj hnq)]
    exact hj
  · intro id j st hj
    have hfid : ∀ y : MeetingJob, ({ y with status := st } : MeetingJob).id = y.id := fun y => rfl
    show findJob (setJob s.jobs id _) id = _
    rw [findJob_setJob_self _ _ _ hfid,
        show findJob s.jobs id = some j from hj]
    rfl

/-- Claim C3 (amended) witness: at the reachable one-job state the dispatch
pass leaves the `processing` job untouched, and `updateJobStatus` rewrites
its status unconditionally. -/
theorem claim3_witness :
    getJob (dispatchPass (addJob (initState 1) "x" true none)) 0 =
      some ({ id := 0, meetingUrl := "x", startRecording := true,
                scheduledTime := none, status := JStatus.processing,
                error := none, createdAt := 0, startedAt := some 0,
                completedAt := none } : MeetingJob) ∧
    getJob (updateJobStatus (addJob (initState 1) "x" true none) 0 JStatus.completed) 0 =
      some ({ id := 0, meetingUrl := "x", startRecording := true,
                scheduledTime := none, status := JStatus.completed,
                error := none, createdAt := 0, startedAt := some 0,
                completedAt := none } : MeetingJob) := by
  have hr : QReach (addJob (initState 1) "x" true none) :=
    QReach.step (QReach.init 1) (QStep.submit _ "x" true none)
  constructor
  · exact (claim3_amended hr).1 0
      ({ id := 0, meetingUrl := "x", startRecording := true,
           scheduledTime := none, status := JStatus.processing,
           error := none, createdAt := 0, startedAt := some 0,
           completedAt := none } : MeetingJob) (by decide) (by decide)
  · exact (claim3_amended hr).2 0
      ({ id := 0, meetingUrl := "x", startRecording := true,
           scheduledTime := none, status := JStatus.processing,
           error := none, createdAt := 0, startedAt := some 0,
           completedAt := none } : MeetingJob) JStatus.completed (by decide)

/-- Claim C7 counterexample: `SessionPool.acquireSession` suspends in
`await MeetingSession.create` between its capacity check and the binding
`activeSessions.set(jobId, session)`, with no re-check on resumption.  In
the pool's own interleaving semantics two overlapping acquire calls (for
distinct job ids, limit 1) both pass the check and both bind, reaching a
pool state with 2 bound sessions — the check and bind are not a single
atomic decision point as claimed. -/
theorem claim7_counterexample :
    PReach ({ activeSessions := [1, 0], pending := [],
              maxConcurrent := 1 } : PoolSt) ∧
    ¬(({ activeSessions := [1, 0], pending := [],
         maxConcurrent := 1 } : PoolSt).activeSessions.length ≤
      ({ activeSessions := [1, 0], pending := [],
         maxConcurrent := 1 } : PoolSt).maxConcurrent) := by
  have h0 : PReach ({ activeSessions := [], pending := [], maxConcurrent := 1 } : PoolSt) :=
    PReach.start 1
  have h1 : PReach ({ activeSessions := [], pending := [0], maxConcurrent := 1 } : PoolSt) :=
    PReach.step h0 (PStep.check _ 0 (by decide) (by decide) (by decide))
  have h2 : PReach ({ activeSessions := [], pending := [1, 0], maxConcurrent := 1 } : PoolSt) :=
    PReach.step h1 (PStep.check _ 1 (by decide) (by decide) (by decide))
  have h3 : PReach ({ activeSessions := [0], pending := [1], maxConcurrent := 1 } : PoolSt) :=
    PReach.step h2 (PStep.bind _ 0 (by decide))
  have h4 : PReach ({ activeSessions := [1, 0], pending := [], maxConcurrent := 1 } : PoolSt) :=
    PReach.step h3 (PStep.bind _ 1 (by decide))
  exact ⟨h4, by decide⟩

/-- Claim C7 (amended): `acquireSession` has a suspension point (the awaited
session creation) between the capacity check and the binding, so two
overlapping acquire calls can jointly overshoot the limit at the pool level;
the limit is instead maintained by the gating the `JobQueue` dispatch loop
provides — an acquire call only starts while bound-plus-in-flight
acquisitions are below the limit (each in-flight acquisition holds a
distinct `activeJobs` slot, and the queue's synchronous `activeJobs.size`
check bounds those slots) — under which the pool never exceeds the
maximum. -/
theorem claim7_amended {p : PoolSt} (h : GReach p) :
    p.activeSessions.length ≤ p.maxConcurrent := by
  have hI := greach_inv h
  have := hI.occLe
  omega

/-- Claim C7 (amended) witness: a gated trace (one acquire started and
bound) respects the limit. -/
theorem claim7_witness :
    ({ activeSessions := [0], pending := [],
       maxConcurrent := 1 } : PoolSt).activeSessions.length ≤
      ({ activeSessions := [0], pending := [],
         maxConcurrent := 1 } : PoolSt).maxConcurrent := by
  have h0 : GReach ({ activeSessions := [], pending := [], maxConcurrent := 1 } : PoolSt) :=
    GReach.start 1
  have h1 : GReach ({ activeSessions := [], pending := [0], maxConcurrent := 1 } : PoolSt) :=
    GReach.step h0 (GStep.check _ 0 (by decide) (by decide) (by decide))
  have h2 : GReach ({ activeSessions := [0], pending := [], maxConcurrent := 1 } : PoolSt) :=
    GReach.step h1 (GStep.bind _ 0 (by decide))
  exact claim7_amended h2

/-- Claim C8 counterexample: a job joins successfully and is `in-meeting`;
during the pre-recording stabilization wait the pool is reinitialized
(headless-mode switch), tearing the session down.  `session.startRecording`
then throws `'Session is no longer active'`, and the driver failure path
marks the job `failed` — so a failing `startRecording` can make a
successfully-joined job `failed`, contradicting the claim. -/
theorem claim8_counterexample :
    getJobStatus (applySaved (setStageState (bindSession (addJob (initState 1) "m" true none) 0) 0 DriverStage.saving) 0) 0 = some JStatus.inMeeting ∧
    QStep ({ applySaved (setStageState (bindSession (addJob (initState 1) "m" true none) 0) 0 DriverStage.saving) 0 with activeSessions := [] } : QState)
      (failDriver ({ applySaved (setStageState (bindSession (addJob (initState 1) "m" true none) 0) 0 DriverStage.saving) 0 with activeSessions := [] } : QState) 0 "Session is no longer active") ∧
    getJobStatus (failDriver ({ applySaved (setStageState (bindSession (addJob (initState 1) "m" true none) 0) 0 DriverStage.saving) 0 with activeSessions := [] } : QState) 0 "Session is no longer active") 0 = some JStatus.failed ∧
    QReach (failDriver ({ applySaved (setStageState (bindSession (addJob (initState 1) "m" true none) 0) 0 DriverStage.saving) 0 with activeSessions := [] } : QState) 0 "Session is no longer active") := by
  have h1 : QReach (addJob (initState 1) "m" true none) :=
    QReach.step (QReach.init 1) (QStep.submit _ "m" true none)
  have h2 : QReach (bindSession (addJob (initState 1) "m" true none) 0) :=
    QReach.step h1 (QStep.finishAcquire _ 0 (by decide))
  have h3 : QReach (setStageState (bindSession (addJob (initState 1) "m" true none) 0) 0 DriverStage.saving) :=
    QReach.step h2 (QStep.joinOk _ 0 (by decide))
  have h4 : QReach (applySaved (setStageState (bindSession (addJob (initState 1) "m" true none) 0) 0 DriverStage.saving) 0) :=
    QReach.step h3 (QStep.sessionSaved _ 0 (by decide))
  have h5 : QReach ({ applySaved (setStageState (bindSession (addJob (initState 1) "m" true none) 0) 0 DriverStage.saving) 0 with activeSessions := [] } : QState) :=
    QReach.step h4 (QStep.reinit _)
  have hstep : QStep ({ applySaved (setStageState (bindSession (addJob (initState 1) "m" true none) 0) 0 DriverStage.saving) 0 with activeSessions := [] } : QState)
      (failDriver ({ applySaved (setStageState (bindSession (addJob (initState 1) "m" true none) 0) 0 DriverStage.saving) 0 with activeSessions := [] } : QState) 0 "Session is no longer active") :=
    QStep.recordingCrash _ 0 (by decide) (by decide)
  exact ⟨by decide, hstep, by decide, QReach.step h5 hstep⟩

/-- Claim C8 (amended): a recording failure *reported* by
`RecordingHandler.startRecording` (which catches its own page errors and
returns `false`) never fails the job: when the handler starts non-recording
and returns `false` its `isRecording` flag is still `false` (first
conjunct), and the driver's handling of a `false` result changes no job
record and no recording flag — the job stays `in-meeting` (second conjunct).
Only a thrown `'Session is no longer active'` — the session having been
released during the wait, not a recording failure report — reaches the
driver failure path. -/
theorem claim8_amended :
    (∀ recordClicked crashed : Bool,
      (rhStart false recordClicked crashed).result = false →
      (rhStart false recordClicked crashed).isRecording = false) ∧
    (∀ (s : QState) (id : Nat),
      (applyRecordingResult s id false).jobs = s.jobs ∧
      (applyRecordingResult s id false).recFlags = s.recFlags) := by
  constructor
  · intro rc cr h
    unfold rhStart at h ⊢
    by_cases hcr : cr = true
    · simp [hcr]
    · by_cases hrc : rc = true
      · simp [hcr, hrc] at h
      · simp [hcr, hrc]
  · intro s id
    exact ⟨rfl, rfl⟩

/-- Claim C8 (amended) witness: the handler's could-not-find-Record failure
returns `false` with the flag still `false`, and the driver's handling of a
`false` result leaves the queue untouched. -/
theorem claim8_witness :
    (rhStart false false false).isRecording = false ∧
    (applyRecordingResult (initState 1) 0 false).jobs = (initState 1).jobs := by
  exact ⟨claim8_amended.1 false false (by decide),
    (claim8_amended.2 (initState 1) 0).1⟩
